import Mathlib

/-!
Verification of the SIAME 2026v3 coordination substrate.

This file gives a shallow embedding, in Lean 4, of the coordination core of
the repository: the tiered priority message queue, the publish/subscribe
event bus, the retry/backoff error handler, the message-bus task store and
agent registry operations (src/shared/communication/message_bus.py), and the
result aggregator (src/orchestrator/result_aggregator.py).  Python dicts are
modelled as association lists with insertion-order semantics, datetime
instants as natural numbers, and Python float scores as rationals.  Blocking
awaits (an enqueue on a full asyncio.Queue) are modelled as an explicit
Blocked outcome, since under the cooperative scheduler such a call does not
return until a consumer frees space.  The theorems at the end of the file
settle the frozen claims about this code.
-/

namespace Siame

/-- Lookup in a Python-style dict modelled as an association list
(the binding for the key; a dict holds at most one). -/
def dictGet {α : Type} : List (String × α) → String → Option α
  | [], _ => none
  | p :: rest, k => if p.1 = k then some p.2 else dictGet rest k

/-- Key-membership test for a dict modelled as an association list. -/
def dictMem {α : Type} : List (String × α) → String → Bool
  | [], _ => false
  | p :: rest, k => p.1 == k || dictMem rest k

/-- Python dict assignment d[k] = v: an existing binding is updated in
place (keeping its position), a new key is appended at the end. -/
def dictInsert {α : Type} : List (String × α) → String → α → List (String × α)
  | [], k, v => [(k, v)]
  | p :: rest, k, v =>
    if p.1 = k then (k, v) :: rest else p :: dictInsert rest k v

/-- Python del d[k]: removes the binding for the key. -/
def dictDelete {α : Type} : List (String × α) → String → List (String × α)
  | [], _ => []
  | p :: rest, k =>
    if p.1 = k then dictDelete rest k else p :: dictDelete rest k

/-- The five message priority tiers of MessagePriority, in declaration
order (CRITICAL, HIGH, NORMAL, LOW, BACKGROUND); Python iterates an Enum
in declaration order. -/
inductive MessagePriority where
  | critical
  | high
  | normal
  | low
  | background
deriving DecidableEq, Repr, Fintype

/-- Numeric value of each tier as declared in the source (CRITICAL = 1 ...
BACKGROUND = 5); smaller value means higher priority. -/
def MessagePriority.value : MessagePriority → Nat
  | .critical => 1
  | .high => 2
  | .normal => 3
  | .low => 4
  | .background => 5

/-- A queued message.  Only the fields the queue logic consults are kept:
the identifier and the priority tier; payload, sender, headers and the
other bookkeeping fields are never read by MessageQueue and are omitted. -/
structure Message where
  id : Nat
  priority : MessagePriority
deriving DecidableEq, Repr

/-- State of MessageQueue: one bounded FIFO per priority tier (the asyncio
queues, oldest first) plus the shared per-tier capacity max_size.  The
rolling history and counters are diagnostics and are not modelled. -/
structure MessageQueue where
  max_size : Nat
  critical : List Message
  high : List Message
  normal : List Message
  low : List Message
  background : List Message
deriving DecidableEq, Repr

/-- The tier list of a given priority. -/
def MessageQueue.tier (q : MessageQueue) : MessagePriority → List Message
  | .critical => q.critical
  | .high => q.high
  | .normal => q.normal
  | .low => q.low
  | .background => q.background

/-- Replace the tier list of a given priority. -/
def MessageQueue.set_tier (q : MessageQueue) :
    MessagePriority → List Message → MessageQueue
  | .critical, l => { q with critical := l }
  | .high, l => { q with high := l }
  | .normal, l => { q with normal := l }
  | .low, l => { q with low := l }
  | .background, l => { q with background := l }

/-- MessageQueue.get: the priority loop unrolled in declaration order; the
first non-empty tier yields its oldest message immediately (a get on a
non-empty asyncio.Queue completes at once).  When every tier is empty the
source either returns None or suspends waiting on all queues; both are
modelled as none, since the claims concern states with a non-empty tier. -/
def MessageQueue.get (q : MessageQueue) : Option (Message × MessageQueue) :=
  match q.critical with
  | m :: rest => some (m, { q with critical := rest })
  | [] =>
    match q.high with
    | m :: rest => some (m, { q with high := rest })
    | [] =>
      match q.normal with
      | m :: rest => some (m, { q with normal := rest })
      | [] =>
        match q.low with
        | m :: rest => some (m, { q with low := rest })
        | [] =>
          match q.background with
          | m :: rest => some (m, { q with background := rest })
          | [] => none

/-- Total number of queued messages across all tiers. -/
def MessageQueue.total_size (q : MessageQueue) : Nat :=
  q.critical.length + q.high.length + q.normal.length + q.low.length +
    q.background.length

/-- Repeatedly dequeue, collecting the messages in dequeue order; the fuel
bounds the number of get calls. -/
def MessageQueue.drain : Nat → MessageQueue → List Message
  | 0, _ => []
  | n + 1, q =>
    match q.get with
    | none => []
    | some (m, q2) => m :: MessageQueue.drain n q2

/-- MessageQueue.make_room_for_critical: discards the oldest message of
the BACKGROUND tier if non-empty, otherwise of the LOW tier if non-empty,
otherwise does nothing.  The source only ever inspects these two tiers. -/
def MessageQueue.make_room_for_critical (q : MessageQueue) : MessageQueue :=
  match q.background with
  | _ :: rest => { q with background := rest }
  | [] =>
    match q.low with
    | _ :: rest => { q with low := rest }
    | [] => q

/-- Outcome of MessageQueue.put.  The source returns a bool; accepted and
rejected are its True and False returns.  blocked models the await on
queue.put when the target tier is still full: under the cooperative
scheduler the call suspends without enqueueing until a consumer frees
space, so the enqueue does not complete as part of the call. -/
inductive PutOutcome where
  | accepted
  | rejected
  | blocked
deriving DecidableEq, Repr

/-- MessageQueue.put: the target tier is the one of the message priority;
if it is full a non-critical message is rejected, while a critical message
first runs make_room_for_critical (which touches only the BACKGROUND and
LOW tiers) and then awaits put on the still-full CRITICAL tier, which
blocks.  Otherwise the message is appended at the back of its tier. -/
def MessageQueue.put (q : MessageQueue) (m : Message) :
    PutOutcome × MessageQueue :=
  let t := q.tier m.priority
  if q.max_size ≤ t.length then
    if m.priority = .critical then
      (.blocked, q.make_room_for_critical)
    else
      (.rejected, q)
  else
    (.accepted, q.set_tier m.priority (t ++ [m]))

/-- A task record.  Timestamps (created_at, started_at, completed_at) and
the payload dictionaries are bookkeeping the verified claims never read
and are omitted; every field the error handler, the task store and the
dispatcher consult is kept. -/
structure Task where
  id : String
  task_type : String
  agent_type : Option String
  status : String
  priority : MessagePriority
  assigned_agent_id : Option String
  error_message : Option String
  retry_count : Nat
  max_retries : Nat
deriving DecidableEq, Repr

/-- State of ErrorHandler: the permanently failed task table, the retry
schedule (task id mapped to the absolute instant of the scheduled retry,
time modelled as a natural number), and the error-type histogram. -/
structure ErrorHandler where
  max_retry_delay : Nat
  failed_tasks : List (String × Task)
  retry_schedule : List (String × Nat)
  error_patterns : List (String × Nat)
deriving DecidableEq, Repr

/-- ErrorHandler.handle_task_error: increments retry_count, records the
error pattern, and either schedules a retry at now + min(2 ^ retry_count
+ jitter, max_retry_delay) returning True, or, when the incremented
retry_count exceeds max_retries, marks the task failed and stores it in
failed_tasks returning False.  The sub-second random jitter of the source
is the jitter parameter; current time is the now parameter. -/
def ErrorHandler.handle_task_error (h : ErrorHandler) (task : Task)
    (error_type error_msg : String) (now jitter : Nat) :
    Bool × Task × ErrorHandler :=
  let task1 := { task with retry_count := task.retry_count + 1,
                           error_message := some error_msg }
  let patterns := dictInsert h.error_patterns error_type
    ((dictGet h.error_patterns error_type).getD 0 + 1)
  if task1.retry_count ≤ task1.max_retries then
    let delay := min (2 ^ task1.retry_count + jitter) h.max_retry_delay
    (true, task1,
      { h with
        retry_schedule := dictInsert h.retry_schedule task1.id (now + delay),
        error_patterns := patterns })
  else
    let task2 := { task1 with status := "failed" }
    (false, task2,
      { h with
        failed_tasks := dictInsert h.failed_tasks task2.id task2,
        error_patterns := patterns })

/-- The sweep loop inside ErrorHandler.get_retry_tasks: walks the retry
schedule snapshot in order; every due entry is deleted from the schedule,
and a task is promoted (status reset to pending and returned) only when
its id is also present in failed_tasks, which is then popped.  Returns
the ready tasks, the remaining schedule and the remaining failed table. -/
def retry_sweep (now : Nat) :
    List (String × Nat) → List (String × Task) →
    List Task × List (String × Nat) × List (String × Task)
  | [], failed => ([], [], failed)
  | (tid, rt) :: rest, failed =>
    if rt ≤ now then
      match dictGet failed tid with
      | some t =>
        let out := retry_sweep now rest (dictDelete failed tid)
        ({ t with status := "pending" } :: out.1, out.2.1, out.2.2)
      | none =>
        let out := retry_sweep now rest failed
        (out.1, out.2.1, out.2.2)
    else
      let out := retry_sweep now rest failed
      (out.1, (tid, rt) :: out.2.1, out.2.2)

/-- ErrorHandler.get_retry_tasks: runs the sweep at the given instant and
returns the promoted tasks together with the updated handler. -/
def ErrorHandler.get_retry_tasks (h : ErrorHandler) (now : Nat) :
    List Task × ErrorHandler :=
  let out := retry_sweep now h.retry_schedule h.failed_tasks
  (out.1, { h with retry_schedule := out.2.1, failed_tasks := out.2.2 })

/-- A published event.  Of the event_data dict only the task_id entry is
kept, which is all the claims consult; id, timestamp and tags are
omitted. -/
structure Event where
  event_type : String
  source_agent_id : String
  severity : String
  task_id : Option String
deriving DecidableEq, Repr

/-- AgentContext: the shared registry record of one agent.  The heartbeat
timestamp, performance metrics and metadata dict are not consulted by the
claims and are omitted; load_factor is the stored Python float, modelled
as a rational. -/
structure AgentContext where
  agent_id : String
  agent_type : String
  agent_name : String
  status : String
  capabilities : List String
  current_tasks : List String
  load_factor : Rat
deriving DecidableEq, Repr

/-- State of MessageBus: the priority queue, the shared-context agent
table, the active task store, the per-task callback lists (callbacks are
opaque handler identifiers), the error handler, and two observation logs:
the events published on the event bus and the callback invocations
performed (callback id paired with the task id it was called for). -/
structure MessageBus where
  message_queue : MessageQueue
  agents : List (String × AgentContext)
  active_tasks : List (String × Task)
  task_callbacks : List (String × List Nat)
  error_handler : ErrorHandler
  published_events : List Event
  callback_runs : List (Nat × String)
deriving DecidableEq, Repr

/-- MessageBus.register_agent: stores a fresh AgentContext (status active,
no current tasks, load factor 0.0) under the agent id and publishes an
agent_registered event. -/
def MessageBus.register_agent (bus : MessageBus)
    (agent_id agent_type agent_name : String)
    (capabilities : List String) : MessageBus :=
  let ctx : AgentContext :=
    { agent_id := agent_id, agent_type := agent_type,
      agent_name := agent_name, status := "active",
      capabilities := capabilities, current_tasks := [], load_factor := 0 }
  { bus with
    agents := dictInsert bus.agents agent_id ctx,
    published_events := bus.published_events ++
      [{ event_type := "agent_registered", source_agent_id := agent_id,
         severity := "info", task_id := none }] }

/-- MessageBus.unregister_agent: marks the agent offline when present and
publishes an agent_disconnected event in every case. -/
def MessageBus.unregister_agent (bus : MessageBus) (agent_id : String) :
    MessageBus :=
  let agents2 := match dictGet bus.agents agent_id with
    | some a => dictInsert bus.agents agent_id { a with status := "offline" }
    | none => bus.agents
  { bus with
    agents := agents2,
    published_events := bus.published_events ++
      [{ event_type := "agent_disconnected", source_agent_id := agent_id,
         severity := "info", task_id := none }] }

/-- SharedContext.update_agent_status through the bus: updates the status
field of a registered agent; unknown ids are ignored. -/
def MessageBus.update_agent_status (bus : MessageBus)
    (agent_id status : String) : MessageBus :=
  match dictGet bus.agents agent_id with
  | some a =>
    { bus with agents := dictInsert bus.agents agent_id { a with status := status } }
  | none => bus

/-- SharedContext.get_available_agents: the agents, in table order, whose
status is active or idle, whose load factor is below 0.8, and whose type
matches the optional filter. -/
def MessageBus.get_available_agents (bus : MessageBus)
    (agent_type : Option String) : List AgentContext :=
  (bus.agents.map (fun p => p.2)).filter (fun a =>
    (a.status == "active" || a.status == "idle") &&
      decide (a.load_factor < (8 : Rat) / 10) &&
      (agent_type.elim true (fun ty => a.agent_type == ty)))

/-- Python min(list, key): the first element attaining the minimal key;
an element replaces the current best only when strictly smaller. -/
def min_by_load : List AgentContext → Option AgentContext
  | [] => none
  | a :: rest =>
    some (rest.foldl
      (fun best x => if x.load_factor < best.load_factor then x else best) a)

/-- MessageBus._handle_task_message: picks the available agent of the
required type with the least load; on selection the agent gains the task
id in its current-task list and its load factor is recomputed as the new
list length divided by 5.  The local task object of the source (assigned
agent, running status, start time) is mutated but never stored back into
active_tasks, so only the agent table changes.  With no available agent
the carrying message is re-enqueued. -/
def MessageBus.handle_task_message (bus : MessageBus) (task : Task)
    (msg : Message) : MessageBus :=
  let available := bus.get_available_agents task.agent_type
  match min_by_load available with
  | some sel =>
    let tasks2 := sel.current_tasks ++ [task.id]
    let sel2 := { sel with
      current_tasks := tasks2,
      load_factor := (tasks2.length : Rat) / 5 }
    { bus with agents := dictInsert bus.agents sel.agent_id sel2 }
  | none =>
    { bus with message_queue := (bus.message_queue.put msg).2 }

/-- MessageBus.submit_task: stores the task in the active store, appends
the optional callback, and enqueues a task message at the task priority
(the fresh message id is the msg_id parameter).  On a full tier the put
outcome propagates as the returned flag (accepted maps to True). -/
def MessageBus.submit_task (bus : MessageBus) (task : Task)
    (callback : Option Nat) (msg_id : Nat) : Bool × MessageBus :=
  let bus1 := { bus with
    active_tasks := dictInsert bus.active_tasks task.id task }
  let bus2 := match callback with
    | some cb =>
      let cbs := (dictGet bus1.task_callbacks task.id).getD [] ++ [cb]
      { bus1 with task_callbacks := dictInsert bus1.task_callbacks task.id cbs }
    | none => bus1
  let msg : Message := { id := msg_id, priority := task.priority }
  let out := bus2.message_queue.put msg
  if out.1 = .accepted then
    (true, { bus2 with
      message_queue := out.2,
      published_events := bus2.published_events ++
        [{ event_type := "task_started", source_agent_id := "system",
           severity := "info", task_id := some task.id }] })
  else
    (false, { bus2 with message_queue := out.2 })

/-- MessageBus.complete_task: when the id is active, the task is marked
completed, its callbacks run (exceptions are caught, so every callback is
invoked), a task_completed event is published, and the task is removed
from the store and from the callback table, returning True.  An unknown
id returns False and changes nothing. -/
def MessageBus.complete_task (bus : MessageBus) (task_id agent_id : String) :
    Bool × MessageBus :=
  match dictGet bus.active_tasks task_id with
  | some _ =>
    let runs := ((dictGet bus.task_callbacks task_id).getD []).map
      (fun cb => (cb, task_id))
    let ev : Event :=
      { event_type := "task_completed", source_agent_id := agent_id,
        severity := "info", task_id := some task_id }
    (true, { bus with
      active_tasks := dictDelete bus.active_tasks task_id,
      task_callbacks := dictDelete bus.task_callbacks task_id,
      published_events := bus.published_events ++ [ev],
      callback_runs := bus.callback_runs ++ runs })
  | none => (false, bus)

/-- MessageBus.fail_task: when the id is active, the error handler
decides; on a scheduled retry the (mutated) task stays in the store and
the call returns True; on retry exhaustion a task_failed event of error
severity is published, the failure callbacks run, and the task is removed
from the store and the callback table, still returning True.  An unknown
id returns False and changes nothing. -/
def MessageBus.fail_task (bus : MessageBus)
    (task_id error_type error_msg agent_id : String) (now jitter : Nat) :
    Bool × MessageBus :=
  match dictGet bus.active_tasks task_id with
  | some task =>
    let out := bus.error_handler.handle_task_error task error_type error_msg
      now jitter
    if out.1 then
      (true, { bus with
        active_tasks := dictInsert bus.active_tasks task_id out.2.1,
        error_handler := out.2.2 })
    else
      let ev : Event :=
        { event_type := "task_failed", source_agent_id := agent_id,
          severity := "error", task_id := some task_id }
      let runs := ((dictGet bus.task_callbacks task_id).getD []).map
        (fun cb => (cb, task_id))
      (true, { bus with
        active_tasks := dictDelete bus.active_tasks task_id,
        task_callbacks := dictDelete bus.task_callbacks task_id,
        error_handler := out.2.2,
        published_events := bus.published_events ++ [ev],
        callback_runs := bus.callback_runs ++ runs })
  | none => (false, bus)

/-- MessageBus._retry_scheduler, one iteration of the sweep loop: asks
the error handler for the due retries and resubmits each of them (with no
callback; fresh message ids are drawn from msg_id onward). -/
def MessageBus.retry_scheduler_sweep (bus : MessageBus) (now msg_id : Nat) :
    MessageBus :=
  let out := bus.error_handler.get_retry_tasks now
  let bus1 := { bus with error_handler := out.2 }
  (out.1.foldl (fun acc t =>
    ((acc.1.submit_task t none acc.2).2, acc.2 + 1)) (bus1, msg_id)).1

/-- Iterated MessageBus.fail_task on one task id with fixed error and
timing parameters: the state after n successive failure reports. -/
def MessageBus.fail_iter (bus : MessageBus)
    (task_id error_type error_msg agent_id : String) (now jitter : Nat) :
    Nat → MessageBus
  | 0 => bus
  | n + 1 =>
    ((bus.fail_iter task_id error_type error_msg agent_id now jitter n).fail_task
      task_id error_type error_msg agent_id now jitter).2

/-- Count of the error-severity task_failed events for a given task id in
an event log. -/
def errorEventCount (events : List Event) (task_id : String) : Nat :=
  (events.filter (fun e =>
    e.event_type == "task_failed" && e.severity == "error" &&
      e.task_id == some task_id)).length

/-- State of EventBus.  The source keeps the subscribers of each topic in
a Python set (and the wildcard subscribers in another set); a set retains
which callbacks are members but not the order in which they were added.
The model keeps, for each topic, the list of members in subscription
order — strictly more information than the source retains — precisely so
that registration order can be stated; iteration over the set during
publish is modelled as an arbitrary enumeration of the members, supplied
to publish_with and constrained by ValidEnum.  Callbacks are opaque
handler identifiers. -/
structure EventBus where
  subscribers : List (String × List Nat)
  wildcard_subscribers : List Nat
deriving DecidableEq, Repr

/-- EventBus.subscribe: adds the callback to the wildcard set when the
topic is the literal star, otherwise to the set of the topic (creating
the entry on first use); adding a member already present is a no-op, as
for a Python set. -/
def EventBus.subscribe (b : EventBus) (topic : String) (cb : Nat) :
    EventBus :=
  if topic = "*" then
    if b.wildcard_subscribers.contains cb then b
    else { b with wildcard_subscribers := b.wildcard_subscribers ++ [cb] }
  else
    let cur := (dictGet b.subscribers topic).getD []
    if cur.contains cb then b
    else { b with subscribers := dictInsert b.subscribers topic (cur ++ [cb]) }

/-- An enumeration pair is valid for a publish when the exact-topic list
is a permutation of the members of the topic set (empty when the topic
has no entry) and the wildcard list is a permutation of the wildcard
set: this is exactly the nondeterminism of iterating Python sets. -/
def ValidEnum (b : EventBus) (topic : String)
    (exact_order wildcard_order : List Nat) : Prop :=
  exact_order.Perm ((dictGet b.subscribers topic).getD []) ∧
    wildcard_order.Perm b.wildcard_subscribers

/-- The delivery loop of EventBus.publish over one subscriber collection:
every callback is invoked in turn inside a try/except, so a raising
callback is recorded as invoked but not counted as delivered, and the
loop continues.  Whether a callback raises is the throws oracle.  Returns
the invocation order and the delivered count. -/
def deliver_loop (throws : Nat → Bool) : List Nat → List Nat × Nat
  | [] => ([], 0)
  | cb :: rest =>
    let out := deliver_loop throws rest
    (cb :: out.1, (if throws cb then 0 else 1) + out.2)

/-- Observable outcome of one EventBus.publish call: the callbacks
invoked in order, and the returned delivered count. -/
structure PublishTrace where
  invoked : List Nat
  delivered_count : Nat
deriving DecidableEq, Repr

/-- EventBus.publish under a chosen set enumeration: the exact-topic loop
runs first, then the wildcard loop; exceptions are caught per callback
and only successful deliveries are counted. -/
def EventBus.publish_with (_b : EventBus) (_topic : String)
    (exact_order wildcard_order : List Nat) (throws : Nat → Bool) :
    PublishTrace :=
  let out1 := deliver_loop throws exact_order
  let out2 := deliver_loop throws wildcard_order
  { invoked := out1.1 ++ out2.1, delivered_count := out1.2 + out2.2 }

/-- Aggregation strategies of the result aggregator. -/
inductive AggregationStrategy where
  | merge
  | consensus
  | best_score
  | weighted_average
  | hierarchical
deriving DecidableEq, Repr

/-- A per-task result recorded by the aggregator.  Timestamps, metadata,
errors and warnings are not consulted by the claims and are omitted;
payload values are modelled as opaque strings. -/
structure TaskResult where
  task_id : String
  agent_id : String
  agent_type : String
  result_type : String
  status : String
  confidence_score : Rat
  execution_time : Rat
  data : List (String × String)
deriving DecidableEq, Repr

/-- One contribution stored by the merge strategy under a field key: the
contributed value with its source agent type and confidence score. -/
structure MergeEntry where
  value : String
  agent_type : String
  confidence : Rat
deriving DecidableEq, Repr

/-- A value of the consolidated-data dict: the merge strategy stores a
list of contributions per field key, the best-score strategy stores the
data dict of the winning result per result type. -/
inductive ConsolidatedVal where
  | entries (l : List MergeEntry)
  | payload (d : List (String × String))
deriving DecidableEq, Repr

/-- A value of the summary dict. -/
inductive SummaryVal where
  | nat (n : Nat)
  | rat (q : Rat)
  | strlist (l : List String)
  | str (s : String)
deriving DecidableEq, Repr

/-- The merge step for one field contribution: consolidated[key] starts
as an empty list on first sight of the key and the entry is appended. -/
def mergeAppend : List (String × ConsolidatedVal) → String → MergeEntry →
    List (String × ConsolidatedVal)
  | [], k, e => [(k, ConsolidatedVal.entries [e])]
  | p :: rest, k, e =>
    if p.1 = k then
      (p.1, match p.2 with
        | .entries l => ConsolidatedVal.entries (l ++ [e])
        | v => v) :: rest
    else p :: mergeAppend rest k e

/-- The body of the loop of ResultAggregator._merge_results for one task
result: every (key, value) pair of the result data contributes an entry,
and the confidence-score dict maps the result type to the confidence of
the last result of that type. -/
def merge_step (acc : List (String × ConsolidatedVal) × List (String × Rat))
    (r : TaskResult) :
    List (String × ConsolidatedVal) × List (String × Rat) :=
  (r.data.foldl (fun c p =>
      mergeAppend c p.1
        { value := p.2, agent_type := r.agent_type,
          confidence := r.confidence_score }) acc.1,
   dictInsert acc.2 r.result_type r.confidence_score)

/-- Sum of the values of a confidence-score dict. -/
def scoreSum (scores : List (String × Rat)) : Rat :=
  (scores.map (fun p => p.2)).sum

/-- ResultAggregator._merge_results: consolidated data, confidence scores
and the summary dict produced by the merge strategy.  Python builds the
agent-type and result-type summary entries as list(set(...)), whose order
is unspecified; the model uses first-occurrence order. -/
def merge_results (rs : List TaskResult) :
    List (String × ConsolidatedVal) × List (String × Rat) ×
      List (String × SummaryVal) :=
  let out := rs.foldl merge_step ([], [])
  let consolidated := out.1
  let scores := out.2
  let avg : Rat :=
    if scores.isEmpty then 0 else scoreSum scores / (scores.length : Rat)
  (consolidated, scores,
    [("total_tasks", .nat rs.length),
     ("agent_types", .strlist ((rs.map (fun r => r.agent_type)).dedup)),
     ("result_types", .strlist ((rs.map (fun r => r.result_type)).dedup)),
     ("average_confidence", .rat avg)])

/-- ResultAggregator._consensus_aggregation: unimplemented in the source
and falls back to the merge strategy. -/
def consensus_aggregation (rs : List TaskResult) :
    List (String × ConsolidatedVal) × List (String × Rat) ×
      List (String × SummaryVal) :=
  merge_results rs

/-- ResultAggregator._weighted_average_aggregation: unimplemented in the
source and falls back to the merge strategy. -/
def weighted_average_aggregation (rs : List TaskResult) :
    List (String × ConsolidatedVal) × List (String × Rat) ×
      List (String × SummaryVal) :=
  merge_results rs

/-- Python max(list, key): the first element attaining the maximal key;
an element replaces the current best only when strictly greater. -/
def max_by_confidence : List TaskResult → Option TaskResult
  | [] => none
  | a :: rest =>
    some (rest.foldl
      (fun best x =>
        if best.confidence_score < x.confidence_score then x else best) a)

/-- ResultAggregator._best_score_aggregation: groups the results by
result type (insertion order), keeps the data and confidence of the
highest-confidence result of each type, and builds its own summary. -/
def best_score_results (rs : List TaskResult) :
    List (String × ConsolidatedVal) × List (String × Rat) ×
      List (String × SummaryVal) :=
  let by_type := rs.foldl (fun d r =>
    dictInsert d r.result_type ((dictGet d r.result_type).getD [] ++ [r])) []
  let picked := by_type.filterMap (fun p =>
    (max_by_confidence p.2).map (fun best => (p.1, best)))
  let consolidated := picked.map (fun p =>
    (p.1, ConsolidatedVal.payload p.2.data))
  let scores := picked.map (fun p => (p.1, p.2.confidence_score))
  let avg : Rat :=
    if scores.isEmpty then 0 else scoreSum scores / (scores.length : Rat)
  (consolidated, scores,
    [("total_tasks", .nat rs.length),
     ("selection_strategy", .str "best_confidence_score"),
     ("average_confidence", .rat avg)])

/-- A task record as seen by the orchestrator, restricted to the fields
_create_aggregated_result reads: the input-data dict (for the document
path) and the document type. -/
structure OrchTask where
  id : String
  input_data : List (String × String)
  document_type : String
deriving DecidableEq, Repr

/-- The orchestrator state the aggregator consults: the active workflows
(workflow id mapped to its task-id list) and the task table. -/
structure Orchestrator where
  active_workflows : List (String × List String)
  tasks : List (String × OrchTask)
deriving DecidableEq, Repr

/-- An aggregated workflow result.  The quality-metric and
processing-statistic dicts are diagnostics no claim consults and are
omitted. -/
structure AggregatedResult where
  workflow_id : String
  document_path : String
  document_type : String
  aggregation_strategy : AggregationStrategy
  task_results : List TaskResult
  consolidated_data : List (String × ConsolidatedVal)
  confidence_scores : List (String × Rat)
  summary : List (String × SummaryVal)
deriving DecidableEq, Repr

/-- ResultAggregator._create_aggregated_result: document fields come from
the orchestrator record of the first task result; the strategy dispatch
runs merge for MERGE, the consensus fallback for CONSENSUS, best-score
for BEST_SCORE, the weighted-average fallback for WEIGHTED_AVERAGE, and
merge again in the default branch (HIERARCHICAL). -/
def create_aggregated_result (orch : Orchestrator) (workflow_id : String)
    (rs : List TaskResult) (strategy : AggregationStrategy) :
    AggregatedResult :=
  let first_task := match rs with
    | [] => none
    | r :: _ => dictGet orch.tasks r.task_id
  let document_path := match first_task with
    | some t => (dictGet t.input_data "document_path").getD ""
    | none => ""
  let document_type := match first_task with
    | some t => t.document_type
    | none => "unknown"
  let out := match strategy with
    | .merge => merge_results rs
    | .consensus => consensus_aggregation rs
    | .best_score => best_score_results rs
    | .weighted_average => weighted_average_aggregation rs
    | .hierarchical => merge_results rs
  { workflow_id := workflow_id, document_path := document_path,
    document_type := document_type, aggregation_strategy := strategy,
    task_results := rs, consolidated_data := out.1,
    confidence_scores := out.2.1, summary := out.2.2 }

/-- State of ResultAggregator: the per-task result store, the aggregated
result store, the workflow-to-result-ids table, the counters of the
aggregation statistics the claims consult, and the log of workflow ids
whose aggregation completed (the success log line of
aggregate_workflow_results), in order. -/
structure ResultAggregator where
  task_results : List (String × TaskResult)
  aggregated_results : List (String × AggregatedResult)
  workflow_results : List (String × List String)
  total_results_processed : Nat
  workflows_completed : Nat
  aggregations_performed : Nat
  aggregation_log : List String
deriving DecidableEq, Repr

/-- ResultAggregator.aggregate_workflow_results: fails (None) when the
workflow is unknown or none of its task ids has a recorded result;
otherwise consolidates the recorded results with the requested strategy
(MERGE when none is given), stores the aggregated result under the
workflow id, records the contributing task ids, bumps both counters and
logs the aggregation.  No guard prevents aggregating a workflow that was
already aggregated. -/
def ResultAggregator.aggregate_workflow_results (a : ResultAggregator)
    (orch : Orchestrator) (workflow_id : String)
    (strategy : Option AggregationStrategy) :
    Option AggregatedResult × ResultAggregator :=
  match dictGet orch.active_workflows workflow_id with
  | none => (none, a)
  | some task_ids =>
    let rs := task_ids.filterMap (fun tid => dictGet a.task_results tid)
    if rs.isEmpty then (none, a)
    else
      let strat := strategy.getD .merge
      let agg := create_aggregated_result orch workflow_id rs strat
      (some agg,
        { a with
          aggregated_results := dictInsert a.aggregated_results workflow_id agg,
          workflow_results := dictInsert a.workflow_results workflow_id
            (rs.map (fun r => r.task_id)),
          workflows_completed := a.workflows_completed + 1,
          aggregations_performed := a.aggregations_performed + 1,
          aggregation_log := a.aggregation_log ++ [workflow_id] })

/-- ResultAggregator._check_workflow_completion: finds the first active
workflow containing the task id (and stops there); when every task id of
that workflow has a recorded result and the workflow has not been
aggregated yet, aggregates it with the default strategy. -/
def ResultAggregator.check_workflow_completion (a : ResultAggregator)
    (orch : Orchestrator) (task_id : String) : ResultAggregator :=
  match orch.active_workflows.find? (fun p => p.2.contains task_id) with
  | none => a
  | some (wid, tids) =>
    if tids.all (fun tid => dictMem a.task_results tid) &&
        !(dictMem a.aggregated_results wid) then
      (a.aggregate_workflow_results orch wid none).2
    else a

/-- ResultAggregator.add_task_result: rejects a result without task id or
agent id; clamps an out-of-range confidence score into the unit interval;
stores the result, bumps the processed counter, and runs the automatic
workflow-completion check for the task id. -/
def ResultAggregator.add_task_result (a : ResultAggregator)
    (orch : Orchestrator) (r : TaskResult) : Bool × ResultAggregator :=
  if r.task_id = "" then (false, a)
  else if r.agent_id = "" then (false, a)
  else
    let r2 :=
      if r.confidence_score < 0 ∨ 1 < r.confidence_score then
        { r with confidence_score := max 0 (min 1 r.confidence_score) }
      else r
    let a1 := { a with
      task_results := dictInsert a.task_results r2.task_id r2,
      total_results_processed := a.total_results_processed + 1 }
    (true, a1.check_workflow_completion orch r2.task_id)

/-- The core message-bus operations that touch the task store or the
agent registry, packaged as one step alphabet for the invariant claims. -/
inductive BusOp where
  | register (agent_id agent_type agent_name : String)
      (capabilities : List String)
  | unregister (agent_id : String)
  | update_status (agent_id status : String)
  | task_message (task : Task) (msg : Message)
  | complete (task_id agent_id : String)
  | fail (task_id error_type error_msg agent_id : String) (now jitter : Nat)
  | submit (task : Task) (callback : Option Nat) (msg_id : Nat)

/-- One step of the message bus under a core operation. -/
def MessageBus.step (bus : MessageBus) : BusOp → MessageBus
  | .register aid ty name caps => bus.register_agent aid ty name caps
  | .unregister aid => bus.unregister_agent aid
  | .update_status aid st => bus.update_agent_status aid st
  | .task_message task msg => bus.handle_task_message task msg
  | .complete tid aid => (bus.complete_task tid aid).2
  | .fail tid et em aid now j => (bus.fail_task tid et em aid now j).2
  | .submit task cb mid => (bus.submit_task task cb mid).2

/-- The load-relevant view of the registry record of one agent id: its
current-task list and its stored load factor. -/
def MessageBus.agentView (bus : MessageBus) (agent_id : String) :
    Option (List String × Rat) :=
  (dictGet bus.agents agent_id).map (fun a => (a.current_tasks, a.load_factor))

/-- Registry invariant: every stored load factor equals the length of
the live current-task list divided by 5, and no agent holds more than 4
tasks (the admission threshold load 0.8 caps the list at 4 entries). -/
def AgentInv (bus : MessageBus) : Prop :=
  ∀ p ∈ bus.agents,
    p.2.load_factor = (p.2.current_tasks.length : Rat) / 5 ∧
      p.2.current_tasks.length ≤ 4

theorem dictGet_insert_self {α : Type} (d : List (String × α)) (k : String)
    (v : α) : dictGet (dictInsert d k v) k = some v := by
  induction d with
  | nil => simp [dictGet, dictInsert]
  | cons p rest ih =>
    by_cases h : p.1 = k
    · simp [dictGet, dictInsert, h]
    · simp [dictGet, dictInsert, h, ih]

theorem dictGet_insert_ne {α : Type} (d : List (String × α)) (k k2 : String)
    (v : α) (hne : k2 ≠ k) :
    dictGet (dictInsert d k v) k2 = dictGet d k2 := by
  induction d with
  | nil => simp [dictGet, dictInsert, Ne.symm hne]
  | cons p rest ih =>
    by_cases h : p.1 = k
    · have h2 : p.1 ≠ k2 := by
        rw [h]
        exact Ne.symm hne
      simp [dictGet, dictInsert, h, h2, Ne.symm hne]
    · by_cases h2 : p.1 = k2 <;> simp [dictGet, dictInsert, h, h2, hne, ih]

theorem dictMem_eq_isSome {α : Type} (d : List (String × α)) (k : String) :
    dictMem d k = (dictGet d k).isSome := by
  induction d with
  | nil => simp [dictGet, dictMem]
  | cons p rest ih =>
    by_cases h : p.1 = k <;> simp [dictGet, dictMem, h, ih]

theorem dictMem_insert_self {α : Type} (d : List (String × α)) (k : String)
    (v : α) : dictMem (dictInsert d k v) k = true := by
  rw [dictMem_eq_isSome, dictGet_insert_self]
  rfl

theorem dictMem_insert_ne {α : Type} (d : List (String × α)) (k k2 : String)
    (v : α) (hne : k2 ≠ k) :
    dictMem (dictInsert d k v) k2 = dictMem d k2 := by
  rw [dictMem_eq_isSome, dictMem_eq_isSome, dictGet_insert_ne d k k2 v hne]

theorem dictGet_delete_self {α : Type} (d : List (String × α)) (k : String) :
    dictGet (dictDelete d k) k = none := by
  induction d with
  | nil => simp [dictGet, dictDelete]
  | cons p rest ih =>
    by_cases h : p.1 = k <;> simp [dictGet, dictDelete, h, ih]

theorem dictGet_delete_ne {α : Type} (d : List (String × α)) (k k2 : String)
    (hne : k2 ≠ k) : dictGet (dictDelete d k) k2 = dictGet d k2 := by
  induction d with
  | nil => simp [dictDelete]
  | cons p rest ih =>
    by_cases h : p.1 = k
    · have h2 : p.1 ≠ k2 := by
        rw [h]
        exact Ne.symm hne
      simp [dictGet, dictDelete, h, h2, Ne.symm hne, ih]
    · by_cases h2 : p.1 = k2 <;> simp [dictGet, dictDelete, h, h2, hne, ih]

theorem dictMem_delete_self {α : Type} (d : List (String × α)) (k : String) :
    dictMem (dictDelete d k) k = false := by
  rw [dictMem_eq_isSome, dictGet_delete_self]
  rfl

theorem mem_dictInsert {α : Type} (d : List (String × α)) (k : String)
    (v : α) (p : String × α) (hp : p ∈ dictInsert d k v) :
    p ∈ d ∨ p = (k, v) := by
  induction d with
  | nil =>
    simp [dictInsert] at hp
    exact Or.inr hp
  | cons q rest ih =>
    by_cases h : q.1 = k
    · simp [dictInsert, h] at hp
      rcases hp with hp | hp
      · exact Or.inr hp
      · exact Or.inl (List.mem_cons_of_mem q hp)
    · simp [dictInsert, h] at hp
      rcases hp with hp | hp
      · exact Or.inl (by simp [hp])
      · rcases ih hp with h2 | h2
        · exact Or.inl (List.mem_cons_of_mem q h2)
        · exact Or.inr h2

theorem drain_eq_concat (n : Nat) :
    ∀ q : MessageQueue, q.total_size ≤ n →
      q.drain n = q.critical ++ q.high ++ q.normal ++ q.low ++ q.background := by
  induction n with
  | zero =>
    intro q hq
    obtain ⟨ms, qc, qh, qn, ql, qb⟩ := q
    have hq2 : qc.length + qh.length + qn.length + ql.length + qb.length ≤ 0 := hq
    have h1 : qc = [] := List.length_eq_zero.mp (by omega)
    have h2 : qh = [] := List.length_eq_zero.mp (by omega)
    have h3 : qn = [] := List.length_eq_zero.mp (by omega)
    have h4 : ql = [] := List.length_eq_zero.mp (by omega)
    have h5 : qb = [] := List.length_eq_zero.mp (by omega)
    simp [MessageQueue.drain, h1, h2, h3, h4, h5]
  | succ n ih =>
    intro q hq
    obtain ⟨ms, qc, qh, qn, ql, qb⟩ := q
    cases qc with
    | cons m l =>
      have := ih ⟨ms, l, qh, qn, ql, qb⟩
        (by simp [MessageQueue.total_size] at hq ⊢; omega)
      simpa [MessageQueue.drain, MessageQueue.get] using this
    | nil =>
      cases qh with
      | cons m l =>
        have := ih ⟨ms, [], l, qn, ql, qb⟩
          (by simp [MessageQueue.total_size] at hq ⊢; omega)
        simpa [MessageQueue.drain, MessageQueue.get] using this
      | nil =>
        cases qn with
        | cons m l =>
          have := ih ⟨ms, [], [], l, ql, qb⟩
            (by simp [MessageQueue.total_size] at hq ⊢; omega)
          simpa [MessageQueue.drain, MessageQueue.get] using this
        | nil =>
          cases ql with
          | cons m l =>
            have := ih ⟨ms, [], [], [], l, qb⟩
              (by simp [MessageQueue.total_size] at hq ⊢; omega)
            simpa [MessageQueue.drain, MessageQueue.get] using this
          | nil =>
            cases qb with
            | cons m l =>
              have := ih ⟨ms, [], [], [], [], l⟩
                (by simp [MessageQueue.total_size] at hq ⊢; omega)
              simpa [MessageQueue.drain, MessageQueue.get] using this
            | nil => simp [MessageQueue.drain, MessageQueue.get]

/-- C1: whenever some tier is non-empty, MessageQueue.get returns the
oldest message of the highest-priority non-empty tier and removes it from
that tier; consequently repeated dequeueing empties the queue in strict
priority order with FIFO order inside each tier, and an accepted enqueue
appends at the back of the tier of its priority, so the oldest message of
a tier is the one enqueued first. -/
theorem mq_get_strict_priority_fifo (q : MessageQueue) (p : MessagePriority)
    (m : Message) (rest : List Message)
    (hp : q.tier p = m :: rest)
    (hhigher : ∀ p2 : MessagePriority, p2.value < p.value → q.tier p2 = []) :
    q.get = some (m, q.set_tier p rest) ∧
      (∀ q2 : MessageQueue,
        q2.drain q2.total_size =
          q2.critical ++ q2.high ++ q2.normal ++ q2.low ++ q2.background) ∧
      (∀ (q3 : MessageQueue) (m3 : Message),
        (q3.tier m3.priority).length < q3.max_size →
          q3.put m3 =
            (.accepted, q3.set_tier m3.priority (q3.tier m3.priority ++ [m3]))) := by
  refine ⟨?_, fun q2 => drain_eq_concat q2.total_size q2 (le_refl _), ?_⟩
  · cases p with
    | critical =>
      simp only [MessageQueue.tier] at hp
      simp [MessageQueue.get, MessageQueue.set_tier, hp]
    | high =>
      have h1 := hhigher .critical (by decide)
      simp only [MessageQueue.tier] at hp h1
      simp [MessageQueue.get, MessageQueue.set_tier, hp, h1]
    | normal =>
      have h1 := hhigher .critical (by decide)
      have h2 := hhigher .high (by decide)
      simp only [MessageQueue.tier] at hp h1 h2
      simp [MessageQueue.get, MessageQueue.set_tier, hp, h1, h2]
    | low =>
      have h1 := hhigher .critical (by decide)
      have h2 := hhigher .high (by decide)
      have h3 := hhigher .normal (by decide)
      simp only [MessageQueue.tier] at hp h1 h2 h3
      simp [MessageQueue.get, MessageQueue.set_tier, hp, h1, h2, h3]
    | background =>
      have h1 := hhigher .critical (by decide)
      have h2 := hhigher .high (by decide)
      have h3 := hhigher .normal (by decide)
      have h4 := hhigher .low (by decide)
      simp only [MessageQueue.tier] at hp h1 h2 h3 h4
      simp [MessageQueue.get, MessageQueue.set_tier, hp, h1, h2, h3, h4]
  · intro q3 m3 h
    simp [MessageQueue.put, Nat.not_le.mpr h]

/-- Witness for C1 on the spec scenario: after enqueueing low, normal and
critical messages the highest non-empty tier is CRITICAL and the drain
order is critical, normal, low. -/
theorem mq_get_strict_priority_fifo_witness :
    ((MessageQueue.tier ⟨2, [⟨3, .critical⟩], [], [⟨2, .normal⟩], [⟨1, .low⟩], []⟩
        .critical = [⟨3, .critical⟩]) ∧
      (∀ p2 : MessagePriority, p2.value < (MessagePriority.critical).value →
        MessageQueue.tier ⟨2, [⟨3, .critical⟩], [], [⟨2, .normal⟩], [⟨1, .low⟩], []⟩
          p2 = [])) ∧
      MessageQueue.get ⟨2, [⟨3, .critical⟩], [], [⟨2, .normal⟩], [⟨1, .low⟩], []⟩ =
        some (⟨3, .critical⟩,
          MessageQueue.set_tier ⟨2, [⟨3, .critical⟩], [], [⟨2, .normal⟩], [⟨1, .low⟩], []⟩
            .critical []) ∧
      MessageQueue.drain 3 ⟨2, [⟨3, .critical⟩], [], [⟨2, .normal⟩], [⟨1, .low⟩], []⟩ =
        [⟨3, .critical⟩, ⟨2, .normal⟩, ⟨1, .low⟩] := by
  refine ⟨⟨by decide, by decide⟩, ?_, ?_⟩
  · exact (mq_get_strict_priority_fifo
      ⟨2, [⟨3, .critical⟩], [], [⟨2, .normal⟩], [⟨1, .low⟩], []⟩ .critical
      ⟨3, .critical⟩ [] (by decide) (by decide)).1
  · have := (mq_get_strict_priority_fifo
      ⟨2, [⟨3, .critical⟩], [], [⟨2, .normal⟩], [⟨1, .low⟩], []⟩ .critical
      ⟨3, .critical⟩ [] (by decide) (by decide)).2.1
      ⟨2, [⟨3, .critical⟩], [], [⟨2, .normal⟩], [⟨1, .low⟩], []⟩
    simpa using this

/-- C5, evaluated at the failing inputs: with the CRITICAL tier full
(capacity 1) and a BACKGROUND message queued, putting a critical message
discards the background message and then blocks on the still-full
CRITICAL tier, so the critical message is never accepted; with the
CRITICAL tier full and NORMAL the lowest non-empty tier, nothing at all
is evicted and the put still blocks; a non-critical put on a full tier is
rejected, as the claim states. -/
theorem mq_put_critical_no_room_eval :
    (MessageQueue.put ⟨1, [⟨0, .critical⟩], [], [], [], [⟨9, .background⟩]⟩
        ⟨7, .critical⟩ =
      (.blocked, ⟨1, [⟨0, .critical⟩], [], [], [], []⟩)) ∧
    (MessageQueue.put ⟨1, [⟨0, .critical⟩], [], [⟨4, .normal⟩], [], []⟩
        ⟨7, .critical⟩ =
      (.blocked, ⟨1, [⟨0, .critical⟩], [], [⟨4, .normal⟩], [], []⟩)) ∧
    (MessageQueue.put ⟨1, [], [], [⟨4, .normal⟩], [], []⟩ ⟨8, .normal⟩ =
      (.rejected, ⟨1, [], [], [⟨4, .normal⟩], [], []⟩)) := by
  refine ⟨by decide, by decide, by decide⟩

/-- C3, evaluated at the failing input: a first failure of a task with
max_retries 3 reports a scheduled retry (handle_task_error returns True
and records the retry instant), but the task is not stored in
failed_tasks, so when the retry is due get_retry_tasks promotes nothing
and silently deletes the schedule entry; at the bus level the sweep
leaves the queue empty, the task still has its old status, and the
schedule entry is gone — the due retry is dropped, never re-enqueued. -/
theorem retry_sweep_drops_due_retry_eval :
    (ErrorHandler.handle_task_error ⟨300, [], [], []⟩
        ⟨"t1", "x", none, "running", .normal, none, none, 0, 3⟩
        "ValueError" "boom" 100 0).1 = true ∧
    (ErrorHandler.handle_task_error ⟨300, [], [], []⟩
        ⟨"t1", "x", none, "running", .normal, none, none, 0, 3⟩
        "ValueError" "boom" 100 0).2.2.retry_schedule = [("t1", 102)] ∧
    (ErrorHandler.get_retry_tasks
        (ErrorHandler.handle_task_error ⟨300, [], [], []⟩
          ⟨"t1", "x", none, "running", .normal, none, none, 0, 3⟩
          "ValueError" "boom" 100 0).2.2 1000 =
      ([], ⟨300, [], [], [("ValueError", 1)]⟩)) ∧
    (MessageBus.retry_scheduler_sweep
        ⟨⟨10, [], [], [], [], []⟩, [],
          [("t1", ⟨"t1", "x", none, "running", .normal, none, some "boom", 1, 3⟩)],
          [], ⟨300, [], [("t1", 102)], [("ValueError", 1)]⟩, [], []⟩ 1000 0 =
      ⟨⟨10, [], [], [], [], []⟩, [],
        [("t1", ⟨"t1", "x", none, "running", .normal, none, some "boom", 1, 3⟩)],
        [], ⟨300, [], [], [("ValueError", 1)]⟩, [], []⟩) := by
  refine ⟨by decide, by decide, by decide, by decide⟩

theorem errorEventCount_append (l : List Event) (ev : Event) (tid : String) :
    errorEventCount (l ++ [ev]) tid =
      errorEventCount l tid +
        (if ev.event_type == "task_failed" && ev.severity == "error" &&
            ev.task_id == some tid then 1 else 0) := by
  unfold errorEventCount
  rw [List.filter_append, List.length_append]
  by_cases h : (ev.event_type == "task_failed" && ev.severity == "error" &&
      ev.task_id == some tid) = true
  · simp [h]
  · simp [h]

theorem handle_task_error_retry_eval (h : ErrorHandler) (task : Task)
    (et em : String) (now j : Nat)
    (hc : task.retry_count + 1 ≤ task.max_retries) :
    h.handle_task_error task et em now j =
      (true,
        { task with retry_count := task.retry_count + 1,
                    error_message := some em },
        { h with
          retry_schedule := dictInsert h.retry_schedule task.id
            (now + min (2 ^ (task.retry_count + 1) + j) h.max_retry_delay),
          error_patterns := dictInsert h.error_patterns et
            ((dictGet h.error_patterns et).getD 0 + 1) }) := by
  simp [ErrorHandler.handle_task_error, hc]

theorem handle_task_error_final_eval (h : ErrorHandler) (task : Task)
    (et em : String) (now j : Nat)
    (hc : ¬ task.retry_count + 1 ≤ task.max_retries) :
    h.handle_task_error task et em now j =
      (false,
        { task with retry_count := task.retry_count + 1,
                    error_message := some em, status := "failed" },
        { h with
          failed_tasks := dictInsert h.failed_tasks task.id
            { task with retry_count := task.retry_count + 1,
                        error_message := some em, status := "failed" },
          error_patterns := dictInsert h.error_patterns et
            ((dictGet h.error_patterns et).getD 0 + 1) }) := by
  simp [ErrorHandler.handle_task_error, hc]

theorem fail_task_retry_eval (bus : MessageBus) (tid et em aid : String)
    (now j : Nat) (τ : Task)
    (hget : dictGet bus.active_tasks tid = some τ) (hid : τ.id = tid)
    (hc : τ.retry_count + 1 ≤ τ.max_retries) :
    bus.fail_task tid et em aid now j =
      (true,
        { bus with
          active_tasks := dictInsert bus.active_tasks tid
            { τ with retry_count := τ.retry_count + 1,
                     error_message := some em },
          error_handler := { bus.error_handler with
            retry_schedule := dictInsert bus.error_handler.retry_schedule tid
              (now + min (2 ^ (τ.retry_count + 1) + j)
                bus.error_handler.max_retry_delay),
            error_patterns := dictInsert bus.error_handler.error_patterns et
              ((dictGet bus.error_handler.error_patterns et).getD 0 + 1) } }) := by
  simp only [MessageBus.fail_task, hget,
    handle_task_error_retry_eval bus.error_handler τ et em now j hc, hid]
  rfl

theorem fail_task_final_eval (bus : MessageBus) (tid et em aid : String)
    (now j : Nat) (τ : Task)
    (hget : dictGet bus.active_tasks tid = some τ) (hid : τ.id = tid)
    (hc : ¬ τ.retry_count + 1 ≤ τ.max_retries) :
    bus.fail_task tid et em aid now j =
      (true,
        { bus with
          active_tasks := dictDelete bus.active_tasks tid,
          task_callbacks := dictDelete bus.task_callbacks tid,
          error_handler := { bus.error_handler with
            failed_tasks := dictInsert bus.error_handler.failed_tasks tid
              { τ with retry_count := τ.retry_count + 1,
                       error_message := some em, status := "failed" },
            error_patterns := dictInsert bus.error_handler.error_patterns et
              ((dictGet bus.error_handler.error_patterns et).getD 0 + 1) },
          published_events := bus.published_events ++
            [{ event_type := "task_failed", source_agent_id := aid,
               severity := "error", task_id := some tid }],
          callback_runs := bus.callback_runs ++
            ((dictGet bus.task_callbacks tid).getD []).map
              (fun cb => (cb, tid)) }) := by
  simp only [MessageBus.fail_task, hget,
    handle_task_error_final_eval bus.error_handler τ et em now j hc, hid]
  rfl

theorem fail_task_missing_eval (bus : MessageBus) (tid et em aid : String)
    (now j : Nat) (hget : dictGet bus.active_tasks tid = none) :
    bus.fail_task tid et em aid now j = (false, bus) := by
  simp [MessageBus.fail_task, hget]

theorem fail_iter_spec (bus : MessageBus) (tid et em aid : String)
    (now j : Nat) (t : Task)
    (h1 : dictGet bus.active_tasks tid = some t)
    (h2 : t.id = tid) (h3 : t.retry_count = 0) :
    ∀ n : Nat,
      (n ≤ t.max_retries →
        dictGet (bus.fail_iter tid et em aid now j n).active_tasks tid =
          some (if n = 0 then t
            else { t with retry_count := n, error_message := some em }) ∧
        errorEventCount (bus.fail_iter tid et em aid now j n).published_events
          tid = errorEventCount bus.published_events tid) ∧
      (t.max_retries < n →
        dictMem (bus.fail_iter tid et em aid now j n).active_tasks tid = false ∧
        errorEventCount (bus.fail_iter tid et em aid now j n).published_events
          tid = errorEventCount bus.published_events tid + 1) := by
  intro n
  induction n with
  | zero =>
    refine ⟨fun _ => ⟨?_, rfl⟩, fun h => absurd h (by omega)⟩
    simpa [MessageBus.fail_iter] using h1
  | succ n ih =>
    by_cases hn : n + 1 ≤ t.max_retries
    all_goals by_cases hn1 : n ≤ t.max_retries
    · obtain ⟨hget, hcount⟩ := ih.1 hn1
      have hrc : (if n = 0 then t
          else { t with retry_count := n, error_message := some em }).retry_count
            = n := by
        by_cases h : n = 0 <;> simp [h, h3]
      have hmx : (if n = 0 then t
          else { t with retry_count := n, error_message := some em }).max_retries
            = t.max_retries := by
        by_cases h : n = 0 <;> simp [h]
      have hid : (if n = 0 then t
          else { t with retry_count := n, error_message := some em }).id = tid := by
        by_cases h : n = 0 <;> simp [h, h2]
      refine ⟨fun _ => ?_, fun h => absurd h (by omega)⟩
      rw [MessageBus.fail_iter,
        fail_task_retry_eval _ tid et em aid now j _ hget hid
          (by rw [hrc, hmx]; exact hn)]
      refine ⟨?_, by simpa using hcount⟩
      rw [dictGet_insert_self]
      by_cases h : n = 0 <;> simp [h, h3]
    · exact absurd (by omega : n ≤ t.max_retries) hn1
    · obtain ⟨hget, hcount⟩ := ih.1 hn1
      have hrc : (if n = 0 then t
          else { t with retry_count := n, error_message := some em }).retry_count
            = n := by
        by_cases h : n = 0 <;> simp [h, h3]
      have hmx : (if n = 0 then t
          else { t with retry_count := n, error_message := some em }).max_retries
            = t.max_retries := by
        by_cases h : n = 0 <;> simp [h]
      have hid : (if n = 0 then t
          else { t with retry_count := n, error_message := some em }).id = tid := by
        by_cases h : n = 0 <;> simp [h, h2]
      refine ⟨fun h => absurd h hn, fun _ => ?_⟩
      rw [MessageBus.fail_iter,
        fail_task_final_eval _ tid et em aid now j _ hget hid
          (by rw [hrc, hmx]; exact hn)]
      refine ⟨by simp [dictMem_delete_self], ?_⟩
      simp only []
      rw [errorEventCount_append]
      simp [hcount]
    · have hbig : t.max_retries < n := by omega
      obtain ⟨hmem, hcount⟩ := ih.2 hbig
      have hget : dictGet (bus.fail_iter tid et em aid now j n).active_tasks
          tid = none := by
        rw [dictMem_eq_isSome] at hmem
        exact Option.not_isSome_iff_eq_none.mp (by simp [hmem])
      refine ⟨fun h => absurd h hn, fun _ => ?_⟩
      rw [MessageBus.fail_iter,
        fail_task_missing_eval _ tid et em aid now j hget]
      exact ⟨hmem, hcount⟩

/-- C2: over repeated failure reports for one task, handle_task_error
schedules a retry exactly when the incremented retry count is at most
max_retries (leaving the status unchanged), and otherwise marks the task
failed; along a sequence of fail_task calls the first max_retries calls
schedule retries and publish nothing, the next call publishes exactly one
error-severity task_failed event and removes the task, and every further
call returns False and changes nothing, so the terminal failure is
produced exactly once and no further retry is ever scheduled. -/
theorem fail_task_retry_cap (bus : MessageBus) (tid et em aid : String)
    (now j : Nat) (t : Task)
    (h1 : dictGet bus.active_tasks tid = some t)
    (h2 : t.id = tid) (h3 : t.retry_count = 0) :
    (∀ (h : ErrorHandler) (task : Task) (et2 em2 : String) (now2 j2 : Nat),
      ((h.handle_task_error task et2 em2 now2 j2).1 = true ↔
        task.retry_count + 1 ≤ task.max_retries) ∧
      ((h.handle_task_error task et2 em2 now2 j2).1 = true →
        dictMem (h.handle_task_error task et2 em2 now2 j2).2.2.retry_schedule
          task.id = true ∧
        (h.handle_task_error task et2 em2 now2 j2).2.1.status = task.status) ∧
      ((h.handle_task_error task et2 em2 now2 j2).1 = false →
        (h.handle_task_error task et2 em2 now2 j2).2.1.status = "failed" ∧
        dictMem (h.handle_task_error task et2 em2 now2 j2).2.2.failed_tasks
          task.id = true)) ∧
    (∀ n : Nat,
      errorEventCount (bus.fail_iter tid et em aid now j n).published_events
          tid =
        errorEventCount bus.published_events tid +
          (if n ≤ t.max_retries then 0 else 1)) ∧
    (∀ n : Nat,
      dictMem (bus.fail_iter tid et em aid now j n).active_tasks tid =
        decide (n ≤ t.max_retries)) ∧
    (∀ n : Nat, t.max_retries < n →
      (bus.fail_iter tid et em aid now j n).fail_task tid et em aid now j =
        (false, bus.fail_iter tid et em aid now j n)) := by
  refine ⟨?_, ?_, ?_, ?_⟩
  · intro h task et2 em2 now2 j2
    by_cases hc : task.retry_count + 1 ≤ task.max_retries
    · rw [handle_task_error_retry_eval h task et2 em2 now2 j2 hc]
      exact ⟨⟨fun _ => hc, fun _ => rfl⟩,
        fun _ => ⟨dictMem_insert_self _ _ _, rfl⟩, by simp⟩
    · rw [handle_task_error_final_eval h task et2 em2 now2 j2 hc]
      exact ⟨⟨by simp, fun hle => absurd hle hc⟩, by simp,
        fun _ => ⟨rfl, dictMem_insert_self _ _ _⟩⟩
  · intro n
    by_cases hn : n ≤ t.max_retries
    · rw [if_pos hn]
      simpa using ((fail_iter_spec bus tid et em aid now j t h1 h2 h3 n).1 hn).2
    · rw [if_neg hn]
      exact ((fail_iter_spec bus tid et em aid now j t h1 h2 h3 n).2
        (by omega)).2
  · intro n
    by_cases hn : n ≤ t.max_retries
    · have := ((fail_iter_spec bus tid et em aid now j t h1 h2 h3 n).1 hn).1
      rw [dictMem_eq_isSome, this]
      simp [hn]
    · have := ((fail_iter_spec bus tid et em aid now j t h1 h2 h3 n).2
        (by omega)).1
      simp [hn, this]
  · intro n hn
    have hmem := ((fail_iter_spec bus tid et em aid now j t h1 h2 h3 n).2 hn).1
    have hget : dictGet (bus.fail_iter tid et em aid now j n).active_tasks
        tid = none := by
      rw [dictMem_eq_isSome] at hmem
      exact Option.not_isSome_iff_eq_none.mp (by simp [hmem])
    simp [MessageBus.fail_task, hget]

/-- Witness for C2: a task with max_retries 1 failing repeatedly; after
two failure reports exactly one error-severity task_failed event has been
published, the task is out of the active store, and a third report
returns False and changes nothing. -/
theorem fail_task_retry_cap_witness :
    (dictGet (MessageBus.active_tasks
        ⟨⟨10, [], [], [], [], []⟩, [],
          [("t1", ⟨"t1", "x", none, "running", .normal, none, none, 0, 1⟩)],
          [], ⟨300, [], [], []⟩, [], []⟩) "t1" =
      some ⟨"t1", "x", none, "running", .normal, none, none, 0, 1⟩) ∧
    errorEventCount
      ((MessageBus.fail_iter
        ⟨⟨10, [], [], [], [], []⟩, [],
          [("t1", ⟨"t1", "x", none, "running", .normal, none, none, 0, 1⟩)],
          [], ⟨300, [], [], []⟩, [], []⟩ "t1" "E" "boom" "a1" 50 0 2).published_events)
      "t1" =
      errorEventCount ([] : List Event) "t1" + (if 2 ≤ 1 then 0 else 1) ∧
    dictMem
      ((MessageBus.fail_iter
        ⟨⟨10, [], [], [], [], []⟩, [],
          [("t1", ⟨"t1", "x", none, "running", .normal, none, none, 0, 1⟩)],
          [], ⟨300, [], [], []⟩, [], []⟩ "t1" "E" "boom" "a1" 50 0 2).active_tasks)
      "t1" = decide (2 ≤ 1) := by
  refine ⟨by decide, ?_, ?_⟩
  · exact (fail_task_retry_cap
      ⟨⟨10, [], [], [], [], []⟩, [],
        [("t1", ⟨"t1", "x", none, "running", .normal, none, none, 0, 1⟩)],
        [], ⟨300, [], [], []⟩, [], []⟩ "t1" "E" "boom" "a1" 50 0
      ⟨"t1", "x", none, "running", .normal, none, none, 0, 1⟩
      (by decide) (by decide) (by decide)).2.1 2
  · exact (fail_task_retry_cap
      ⟨⟨10, [], [], [], [], []⟩, [],
        [("t1", ⟨"t1", "x", none, "running", .normal, none, none, 0, 1⟩)],
        [], ⟨300, [], [], []⟩, [], []⟩ "t1" "E" "boom" "a1" 50 0
      ⟨"t1", "x", none, "running", .normal, none, none, 0, 1⟩
      (by decide) (by decide) (by decide)).2.2.1 2

theorem complete_task_found_eval (bus : MessageBus) (tid aid : String)
    (τ : Task) (hget : dictGet bus.active_tasks tid = some τ) :
    bus.complete_task tid aid =
      (true,
        { bus with
          active_tasks := dictDelete bus.active_tasks tid,
          task_callbacks := dictDelete bus.task_callbacks tid,
          published_events := bus.published_events ++
            [{ event_type := "task_completed", source_agent_id := aid,
               severity := "info", task_id := some tid }],
          callback_runs := bus.callback_runs ++
            ((dictGet bus.task_callbacks tid).getD []).map
              (fun cb => (cb, tid)) }) := by
  simp [MessageBus.complete_task, hget]

theorem complete_task_missing_eval (bus : MessageBus) (tid aid : String)
    (hget : dictGet bus.active_tasks tid = none) :
    bus.complete_task tid aid = (false, bus) := by
  simp [MessageBus.complete_task, hget]

/-- C10: completion is at most once.  The first complete_task call for an
active task id returns True and removes the id from the active store; a
second call for the same id on the resulting state returns False and is
the identity on the state, and in general complete_task on any state
where the id is not active returns False and changes nothing. -/
theorem complete_task_at_most_once (bus : MessageBus) (tid aid aid2 : String)
    (h : dictMem bus.active_tasks tid = true) :
    (bus.complete_task tid aid).1 = true ∧
    dictMem (bus.complete_task tid aid).2.active_tasks tid = false ∧
    (bus.complete_task tid aid).2.complete_task tid aid2 =
      (false, (bus.complete_task tid aid).2) ∧
    (∀ (bus2 : MessageBus) (tid2 aid3 : String),
      dictMem bus2.active_tasks tid2 = false →
        bus2.complete_task tid2 aid3 = (false, bus2)) := by
  rw [dictMem_eq_isSome] at h
  obtain ⟨τ, hτ⟩ := Option.isSome_iff_exists.mp h
  have hmiss : ∀ (bus2 : MessageBus) (tid2 aid3 : String),
      dictMem bus2.active_tasks tid2 = false →
        bus2.complete_task tid2 aid3 = (false, bus2) := by
    intro bus2 tid2 aid3 hmem
    rw [dictMem_eq_isSome] at hmem
    exact complete_task_missing_eval bus2 tid2 aid3
      (Option.not_isSome_iff_eq_none.mp (by simp [hmem]))
  rw [complete_task_found_eval bus tid aid τ hτ]
  refine ⟨rfl, by simp [dictMem_delete_self], ?_, hmiss⟩
  exact hmiss _ tid aid2 (by simp [dictMem_delete_self])

/-- Witness for C10 at a concrete bus with one active task: the first
completion returns True and removes the task, the second returns False
and leaves the state unchanged. -/
theorem complete_task_at_most_once_witness :
    (dictMem (MessageBus.active_tasks
        ⟨⟨10, [], [], [], [], []⟩, [],
          [("t1", ⟨"t1", "x", none, "running", .normal, none, none, 0, 3⟩)],
          [("t1", [5])], ⟨300, [], [], []⟩, [], []⟩) "t1" = true) ∧
    (MessageBus.complete_task
        ⟨⟨10, [], [], [], [], []⟩, [],
          [("t1", ⟨"t1", "x", none, "running", .normal, none, none, 0, 3⟩)],
          [("t1", [5])], ⟨300, [], [], []⟩, [], []⟩ "t1" "a1").1 = true ∧
    dictMem ((MessageBus.complete_task
        ⟨⟨10, [], [], [], [], []⟩, [],
          [("t1", ⟨"t1", "x", none, "running", .normal, none, none, 0, 3⟩)],
          [("t1", [5])], ⟨300, [], [], []⟩, [], []⟩ "t1" "a1").2.active_tasks)
      "t1" = false ∧
    (MessageBus.complete_task
        ⟨⟨10, [], [], [], [], []⟩, [],
          [("t1", ⟨"t1", "x", none, "running", .normal, none, none, 0, 3⟩)],
          [("t1", [5])], ⟨300, [], [], []⟩, [], []⟩ "t1" "a1").2.complete_task
        "t1" "a2" =
      (false, (MessageBus.complete_task
        ⟨⟨10, [], [], [], [], []⟩, [],
          [("t1", ⟨"t1", "x", none, "running", .normal, none, none, 0, 3⟩)],
          [("t1", [5])], ⟨300, [], [], []⟩, [], []⟩ "t1" "a1").2) := by
  refine ⟨by decide, ?_⟩
  have := complete_task_at_most_once
    ⟨⟨10, [], [], [], [], []⟩, [],
      [("t1", ⟨"t1", "x", none, "running", .normal, none, none, 0, 3⟩)],
      [("t1", [5])], ⟨300, [], [], []⟩, [], []⟩ "t1" "a1" "a2" (by decide)
  exact ⟨this.1, this.2.1, this.2.2.1⟩

theorem deliver_loop_invoked (throws : Nat → Bool) (l : List Nat) :
    (deliver_loop throws l).1 = l := by
  induction l with
  | nil => rfl
  | cons cb rest ih => simp [deliver_loop, ih]

theorem deliver_loop_count (throws : Nat → Bool) (l : List Nat) :
    (deliver_loop throws l).2 =
      (l.filter (fun cb => !(throws cb))).length := by
  induction l with
  | nil => rfl
  | cons cb rest ih =>
    by_cases h : throws cb <;>
      simp [deliver_loop, List.filter, ih, h, Nat.add_comm]

/-- C9, counterexample to the registration-order conjunct: two callbacks
subscribe to topic t in the order 10 then 20, but the enumeration 20, 10
is a valid iteration order of the Python set holding them, and under it
publish invokes 20 before 10 — delivery does not follow subscription
registration order. -/
theorem publish_subscription_order_counterexample :
    EventBus.subscribe (EventBus.subscribe ⟨[], []⟩ "t" 10) "t" 20 =
      ⟨[("t", [10, 20])], []⟩ ∧
    ValidEnum ⟨[("t", [10, 20])], []⟩ "t" [20, 10] [] ∧
    (EventBus.publish_with ⟨[("t", [10, 20])], []⟩ "t" [20, 10] []
      (fun _ => false)).invoked ≠ [10, 20] := by
  refine ⟨by decide, ⟨?_, ?_⟩, by decide⟩
  · simpa [dictGet] using List.Perm.swap 10 20 []
  · simp

/-- C9 amended: under every valid enumeration of the subscriber sets,
publish invokes all exact-topic subscribers before all wildcard
subscribers (the invocation trace is the exact enumeration followed by
the wildcard enumeration); every subscriber of the matching topic and
every wildcard subscriber is invoked even when other handlers throw,
because each invocation is wrapped in its own exception handler; and the
delivered count is the number of non-throwing handlers.  No invocation
order within one topic is guaranteed. -/
theorem publish_exact_then_wildcard (b : EventBus) (topic : String)
    (eo wo : List Nat) (throws : Nat → Bool)
    (h : ValidEnum b topic eo wo) :
    (b.publish_with topic eo wo throws).invoked = eo ++ wo ∧
    (∀ cb ∈ (dictGet b.subscribers topic).getD [],
      cb ∈ (b.publish_with topic eo wo throws).invoked) ∧
    (∀ cb ∈ b.wildcard_subscribers,
      cb ∈ (b.publish_with topic eo wo throws).invoked) ∧
    (b.publish_with topic eo wo throws).delivered_count =
      ((eo ++ wo).filter (fun cb => !(throws cb))).length := by
  have hinv : (b.publish_with topic eo wo throws).invoked = eo ++ wo := by
    simp [EventBus.publish_with, deliver_loop_invoked]
  refine ⟨hinv, ?_, ?_, ?_⟩
  · intro cb hcb
    rw [hinv]
    exact List.mem_append_left _ (h.1.mem_iff.mpr hcb)
  · intro cb hcb
    rw [hinv]
    exact List.mem_append_right _ (h.2.mem_iff.mpr hcb)
  · simp [EventBus.publish_with, deliver_loop_count, List.filter_append]

/-- Witness for the amended C9: topic t has subscribers 1 and 2, the
wildcard set has 3, handler 1 throws; all three are still invoked, exact
ones first, and the delivered count is 2. -/
theorem publish_exact_then_wildcard_witness :
    ValidEnum ⟨[("t", [1, 2])], [3]⟩ "t" [1, 2] [3] ∧
    (EventBus.publish_with ⟨[("t", [1, 2])], [3]⟩ "t" [1, 2] [3]
        (fun cb => cb == 1)).invoked = [1, 2] ++ [3] ∧
    (EventBus.publish_with ⟨[("t", [1, 2])], [3]⟩ "t" [1, 2] [3]
        (fun cb => cb == 1)).delivered_count =
      (([1, 2] ++ [3]).filter (fun cb => !(cb == 1))).length := by
  have hv : ValidEnum ⟨[("t", [1, 2])], [3]⟩ "t" [1, 2] [3] := by
    constructor
    · simp [dictGet]
    · simp
  have := publish_exact_then_wildcard ⟨[("t", [1, 2])], [3]⟩ "t" [1, 2] [3]
    (fun cb => cb == 1) hv
  exact ⟨hv, this.1, this.2.2.2⟩

theorem dictGet_mem {α : Type} (d : List (String × α)) (k : String) (v : α)
    (h : dictGet d k = some v) : (k, v) ∈ d := by
  induction d with
  | nil => simp [dictGet] at h
  | cons p rest ih =>
    by_cases hp : p.1 = k
    · simp [dictGet, hp] at h
      have hpk : p = (k, v) := by
        cases p
        simp_all
      rw [← hpk]
      exact List.mem_cons_self _ _
    · simp [dictGet, hp] at h
      exact List.mem_cons_of_mem p (ih h)

theorem foldl_min_load_mem (rest : List AgentContext) :
    ∀ a : AgentContext,
      rest.foldl
        (fun best x => if x.load_factor < best.load_factor then x else best) a
        ∈ a :: rest := by
  induction rest with
  | nil => intro a; simp
  | cons x rest ih =>
    intro a
    simp only [List.foldl_cons]
    by_cases h : x.load_factor < a.load_factor
    · rw [if_pos h]
      have := ih x
      rw [List.mem_cons] at this ⊢
      rcases this with h2 | h2
      · right
        rw [List.mem_cons]
        left
        exact h2
      · right
        rw [List.mem_cons]
        right
        exact h2
    · rw [if_neg h]
      have := ih a
      rw [List.mem_cons] at this ⊢
      rcases this with h2 | h2
      · left
        exact h2
      · right
        rw [List.mem_cons]
        right
        exact h2

theorem min_by_load_mem (l : List AgentContext) (a : AgentContext)
    (h : min_by_load l = some a) : a ∈ l := by
  cases l with
  | nil => simp [min_by_load] at h
  | cons b rest =>
    simp [min_by_load] at h
    rw [← h]
    exact foldl_min_load_mem rest b

theorem get_available_agents_spec (bus : MessageBus) (ty : Option String)
    (a : AgentContext) (ha : a ∈ bus.get_available_agents ty) :
    (∃ p ∈ bus.agents, p.2 = a) ∧ a.load_factor < (8 : Rat) / 10 := by
  unfold MessageBus.get_available_agents at ha
  rw [List.mem_filter] at ha
  obtain ⟨hmem, hcond⟩ := ha
  constructor
  · obtain ⟨p, hp, hpa⟩ := List.mem_map.mp hmem
    exact ⟨p, hp, hpa⟩
  · have := (Bool.and_eq_true _ _).mp ((Bool.and_eq_true _ _).mp hcond).1
    exact of_decide_eq_true this.2

theorem load_len_lt_four {n : Nat} (h : (n : Rat) / 5 < 8 / 10) : n < 4 := by
  rw [div_lt_iff₀ (by norm_num : (0 : Rat) < 5)] at h
  have : (n : Rat) < 4 := by linarith
  exact_mod_cast this

theorem load_le_one {n : Nat} (h : n ≤ 4) :
    0 ≤ (n : Rat) / 5 ∧ (n : Rat) / 5 ≤ 1 := by
  constructor
  · positivity
  · rw [div_le_one (by norm_num : (0 : Rat) < 5)]
    have : (n : Rat) ≤ 4 := by exact_mod_cast h
    linarith

theorem complete_task_agents_eq (bus : MessageBus) (tid aid : String) :
    (bus.complete_task tid aid).2.agents = bus.agents := by
  unfold MessageBus.complete_task
  cases dictGet bus.active_tasks tid <;> rfl

theorem fail_task_agents_eq (bus : MessageBus)
    (tid et em aid : String) (now j : Nat) :
    (bus.fail_task tid et em aid now j).2.agents = bus.agents := by
  unfold MessageBus.fail_task
  cases dictGet bus.active_tasks tid with
  | none => rfl
  | some τ =>
    by_cases hr : (bus.error_handler.handle_task_error τ et em now j).1 = true
    · simp only [hr]
      rfl
    · simp only [Bool.not_eq_true] at hr
      simp only [hr]
      rfl

theorem submit_task_agents_eq (bus : MessageBus) (task : Task)
    (cb : Option Nat) (mid : Nat) :
    (bus.submit_task task cb mid).2.agents = bus.agents := by
  unfold MessageBus.submit_task
  cases cb <;> dsimp only <;> split <;> rfl

/-- C6, counterexample to the decrease conjunct: an agent holds task t1
with load factor 1/5; completing t1 succeeds, yet the whole agent table
is unchanged — the task id stays in the current-task list and the load
factor does not decrease.  complete_task (and fail_task) never touch
agent records, so no core operation ever decreases a load factor. -/
theorem load_factor_no_decrease_counterexample :
    (MessageBus.complete_task
      ⟨⟨10, [], [], [], [], []⟩,
        [("a1", ⟨"a1", "w", "A", "active", [], ["t1"], 1 / 5⟩)],
        [("t1", ⟨"t1", "x", none, "running", .normal, some "a1", none, 0, 3⟩)],
        [], ⟨300, [], [], []⟩, [], []⟩ "t1" "a1").1 = true ∧
    (MessageBus.complete_task
      ⟨⟨10, [], [], [], [], []⟩,
        [("a1", ⟨"a1", "w", "A", "active", [], ["t1"], 1 / 5⟩)],
        [("t1", ⟨"t1", "x", none, "running", .normal, some "a1", none, 0, 3⟩)],
        [], ⟨300, [], [], []⟩, [], []⟩ "t1" "a1").2.agents =
      [("a1", ⟨"a1", "w", "A", "active", [], ["t1"], 1 / 5⟩)] := by
  rw [complete_task_found_eval _ "t1" "a1"
    ⟨"t1", "x", none, "running", .normal, some "a1", none, 0, 3⟩ (by decide)]
  exact ⟨rfl, rfl⟩

/-- C6 amended: under the registry invariant, every core operation
preserves the invariant that each stored load factor equals the length of
the live current-task list divided by 5 with at most 4 live tasks; hence
every load factor lies in [0, 1].  Task completion, task failure, task
submission, status updates and unregistration leave every agent's task
list and load factor unchanged (so nothing ever decreases a load
factor), while an assignment appends the task id to the selected agent's
list and increases exactly that agent's load factor by exactly 1/5. -/
theorem load_factor_amended (bus : MessageBus) (h : AgentInv bus) :
    (∀ op : BusOp, AgentInv (bus.step op)) ∧
    (∀ p ∈ bus.agents, 0 ≤ p.2.load_factor ∧ p.2.load_factor ≤ 1) ∧
    (∀ tid aid aid2 : String,
      (bus.step (.complete tid aid)).agentView aid2 = bus.agentView aid2) ∧
    (∀ (tid et em aid : String) (now j : Nat) (aid2 : String),
      (bus.step (.fail tid et em aid now j)).agentView aid2 =
        bus.agentView aid2) ∧
    (∀ (task : Task) (cb : Option Nat) (mid : Nat) (aid2 : String),
      (bus.step (.submit task cb mid)).agentView aid2 = bus.agentView aid2) ∧
    (∀ aid st aid2 : String,
      (bus.step (.update_status aid st)).agentView aid2 =
        bus.agentView aid2) ∧
    (∀ aid aid2 : String,
      (bus.step (.unregister aid)).agentView aid2 = bus.agentView aid2) ∧
    (∀ (task : Task) (msg : Message) (sel : AgentContext),
      min_by_load (bus.get_available_agents task.agent_type) = some sel →
      (bus.step (.task_message task msg)).agentView sel.agent_id =
        some (sel.current_tasks ++ [task.id], sel.load_factor + 1 / 5) ∧
      sel.load_factor < sel.load_factor + 1 / 5 ∧
      (∀ aid2, aid2 ≠ sel.agent_id →
        (bus.step (.task_message task msg)).agentView aid2 =
          bus.agentView aid2)) ∧
    (∀ (task : Task) (msg : Message),
      min_by_load (bus.get_available_agents task.agent_type) = none →
      (bus.step (.task_message task msg)).agents = bus.agents) := by
  refine ⟨?_, ?_, ?_, ?_, ?_, ?_, ?_, ?_, ?_⟩
  · intro op
    cases op with
    | register aid ty name caps =>
      intro p hp
      simp only [MessageBus.step, MessageBus.register_agent] at hp
      rcases mem_dictInsert _ _ _ _ hp with hmem | heq
      · exact h p hmem
      · subst heq
        constructor
        · norm_num
        · norm_num
    | unregister aid =>
      intro p hp
      simp only [MessageBus.step, MessageBus.unregister_agent] at hp
      cases hg : dictGet bus.agents aid with
      | none =>
        rw [hg] at hp
        exact h p hp
      | some a =>
        rw [hg] at hp
        rcases mem_dictInsert _ _ _ _ hp with hmem | heq
        · exact h p hmem
        · subst heq
          exact h (aid, a) (dictGet_mem _ _ _ hg)
    | update_status aid st =>
      intro p hp
      simp only [MessageBus.step, MessageBus.update_agent_status] at hp
      cases hg : dictGet bus.agents aid with
      | none =>
        rw [hg] at hp
        exact h p hp
      | some a =>
        rw [hg] at hp
        simp only at hp
        rcases mem_dictInsert _ _ _ _ hp with hmem | heq
        · exact h p hmem
        · subst heq
          exact h (aid, a) (dictGet_mem _ _ _ hg)
    | task_message task msg =>
      intro p hp
      simp only [MessageBus.step, MessageBus.handle_task_message] at hp
      cases hsel : min_by_load (bus.get_available_agents task.agent_type) with
      | none =>
        rw [hsel] at hp
        exact h p hp
      | some sel =>
        rw [hsel] at hp
        simp only at hp
        rcases mem_dictInsert _ _ _ _ hp with hmem | heq
        · exact h p hmem
        · subst heq
          have hmem2 := min_by_load_mem _ _ hsel
          obtain ⟨⟨p2, hp2, hp2sel⟩, hlt⟩ :=
            get_available_agents_spec bus task.agent_type sel hmem2
          obtain ⟨hload, _⟩ := h p2 hp2
          rw [hp2sel] at hload
          have hlen4 : sel.current_tasks.length < 4 :=
            load_len_lt_four (by rw [← hload]; exact hlt)
          constructor
          · rfl
          · simp only [List.length_append, List.length_cons,
              List.length_nil]
            omega
    | complete tid aid =>
      intro p hp
      rw [show (bus.step (.complete tid aid)).agents = bus.agents from
        complete_task_agents_eq bus tid aid] at hp
      exact h p hp
    | fail tid et em aid now j =>
      intro p hp
      rw [show (bus.step (.fail tid et em aid now j)).agents = bus.agents from
        fail_task_agents_eq bus tid et em aid now j] at hp
      exact h p hp
    | submit task cb mid =>
      intro p hp
      rw [show (bus.step (.submit task cb mid)).agents = bus.agents from
        submit_task_agents_eq bus task cb mid] at hp
      exact h p hp
  · intro p hp
    obtain ⟨hl, hlen⟩ := h p hp
    rw [hl]
    exact load_le_one hlen
  · intro tid aid aid2
    simp [MessageBus.agentView, MessageBus.step, complete_task_agents_eq]
  · intro tid et em aid now j aid2
    simp [MessageBus.agentView, MessageBus.step, fail_task_agents_eq]
  · intro task cb mid aid2
    simp [MessageBus.agentView, MessageBus.step, submit_task_agents_eq]
  · intro aid st aid2
    simp only [MessageBus.step, MessageBus.update_agent_status]
    cases hg : dictGet bus.agents aid with
    | none => rfl
    | some a =>
      by_cases he : aid2 = aid
      · subst he
        simp [MessageBus.agentView, dictGet_insert_self, hg]
      · simp [MessageBus.agentView, dictGet_insert_ne _ _ _ _ he]
  · intro aid aid2
    simp only [MessageBus.step, MessageBus.unregister_agent]
    cases hg : dictGet bus.agents aid with
    | none => rfl
    | some a =>
      by_cases he : aid2 = aid
      · subst he
        simp [MessageBus.agentView, dictGet_insert_self, hg]
      · simp [MessageBus.agentView, dictGet_insert_ne _ _ _ _ he]
  · intro task msg sel hsel
    have hmem2 := min_by_load_mem _ _ hsel
    obtain ⟨⟨p2, hp2, hp2sel⟩, hlt⟩ :=
      get_available_agents_spec bus task.agent_type sel hmem2
    obtain ⟨hload, _⟩ := h p2 hp2
    rw [hp2sel] at hload
    have hlen : ((sel.current_tasks ++ [task.id]).length : Rat) / 5 =
        (sel.current_tasks.length : Rat) / 5 + 1 / 5 := by
      simp only [List.length_append, List.length_singleton]
      push_cast
      ring
    refine ⟨?_, lt_add_of_pos_right _ (by norm_num), ?_⟩
    · simp only [MessageBus.step, MessageBus.handle_task_message, hsel]
      simp only [MessageBus.agentView, dictGet_insert_self, Option.map_some']
      rw [hlen, hload]
    · intro aid2 hne
      simp only [MessageBus.step, MessageBus.handle_task_message, hsel]
      simp [MessageBus.agentView, dictGet_insert_ne _ _ _ _ hne]
  · intro task msg hsel
    simp [MessageBus.step, MessageBus.handle_task_message, hsel]

/-- Witness for the amended C6: a one-agent registry with load 0
satisfies the invariant; a completion step leaves its view unchanged and
a registration step preserves the invariant. -/
theorem load_factor_amended_witness :
    AgentInv ⟨⟨10, [], [], [], [], []⟩,
      [("a1", ⟨"a1", "w", "A", "active", [], [], 0⟩)],
      [], [], ⟨300, [], [], []⟩, [], []⟩ ∧
    (MessageBus.step ⟨⟨10, [], [], [], [], []⟩,
      [("a1", ⟨"a1", "w", "A", "active", [], [], 0⟩)],
      [], [], ⟨300, [], [], []⟩, [], []⟩ (.complete "t1" "x")).agentView "a1" =
      MessageBus.agentView ⟨⟨10, [], [], [], [], []⟩,
        [("a1", ⟨"a1", "w", "A", "active", [], [], 0⟩)],
        [], [], ⟨300, [], [], []⟩, [], []⟩ "a1" ∧
    AgentInv (MessageBus.step ⟨⟨10, [], [], [], [], []⟩,
      [("a1", ⟨"a1", "w", "A", "active", [], [], 0⟩)],
      [], [], ⟨300, [], [], []⟩, [], []⟩ (.register "a2" "w" "B" [])) := by
  have hinv : AgentInv ⟨⟨10, [], [], [], [], []⟩,
      [("a1", ⟨"a1", "w", "A", "active", [], [], 0⟩)],
      [], [], ⟨300, [], [], []⟩, [], []⟩ := by
    intro p hp
    rw [List.mem_singleton] at hp
    subst hp
    norm_num
  exact ⟨hinv,
    (load_factor_amended _ hinv).2.2.1 "t1" "x" "a1",
    (load_factor_amended _ hinv).1 (.register "a2" "w" "B" [])⟩

theorem dictGet_mergeAppend_self_entries
    (d : List (String × ConsolidatedVal)) (k : String) (e : MergeEntry)
    (l : List MergeEntry) (h : dictGet d k = some (.entries l)) :
    dictGet (mergeAppend d k e) k = some (.entries (l ++ [e])) := by
  induction d with
  | nil => simp [dictGet] at h
  | cons p rest ih =>
    by_cases hp : p.1 = k
    · simp [dictGet, hp] at h
      simp [mergeAppend, dictGet, hp, h]
    · simp [dictGet, hp] at h
      simp [mergeAppend, dictGet, hp, ih h]

theorem dictGet_mergeAppend_self_new
    (d : List (String × ConsolidatedVal)) (k : String) (e : MergeEntry)
    (h : dictGet d k = none) :
    dictGet (mergeAppend d k e) k = some (.entries [e]) := by
  induction d with
  | nil => simp [mergeAppend, dictGet]
  | cons p rest ih =>
    by_cases hp : p.1 = k
    · simp [dictGet, hp] at h
    · simp [dictGet, hp] at h
      simp [mergeAppend, dictGet, hp, ih h]

theorem dictGet_mergeAppend_ne (d : List (String × ConsolidatedVal))
    (k k2 : String) (e : MergeEntry) (hne : k2 ≠ k) :
    dictGet (mergeAppend d k e) k2 = dictGet d k2 := by
  induction d with
  | nil => simp [mergeAppend, dictGet, Ne.symm hne]
  | cons p rest ih =>
    by_cases hp : p.1 = k
    · have h2 : p.1 ≠ k2 := by
        rw [hp]
        exact Ne.symm hne
      simp [mergeAppend, dictGet, hp, h2, Ne.symm hne]
    · by_cases h2 : p.1 = k2 <;>
        simp [mergeAppend, dictGet, hp, h2, hne, ih]

theorem mergeAppend_entries_only (d : List (String × ConsolidatedVal))
    (k : String) (e : MergeEntry)
    (hE : ∀ p ∈ d, ∃ l, p.2 = ConsolidatedVal.entries l) :
    ∀ p ∈ mergeAppend d k e, ∃ l, p.2 = ConsolidatedVal.entries l := by
  induction d with
  | nil =>
    intro p hp
    simp [mergeAppend] at hp
    subst hp
    exact ⟨[e], rfl⟩
  | cons q rest ih =>
    intro p hp
    by_cases hq : q.1 = k
    · simp only [mergeAppend, hq, if_pos] at hp
      rw [List.mem_cons] at hp
      rcases hp with hp | hp
      · obtain ⟨l, hl⟩ := hE q (List.mem_cons_self _ _)
        subst hp
        rw [hl]
        exact ⟨l ++ [e], rfl⟩
      · exact hE p (List.mem_cons_of_mem q hp)
    · simp only [mergeAppend, hq, if_neg, not_false_iff] at hp
      rw [List.mem_cons] at hp
      rcases hp with hp | hp
      · subst hp
        exact hE p (List.mem_cons_self _ _)
      · exact ih (fun p2 hp2 => hE p2 (List.mem_cons_of_mem q hp2)) p hp

theorem mergeAppend_preserves_entry (d : List (String × ConsolidatedVal))
    (k k2 : String) (e e2 : MergeEntry) (l : List MergeEntry)
    (h : dictGet d k = some (.entries l)) (he : e ∈ l) :
    ∃ l2, dictGet (mergeAppend d k2 e2) k = some (.entries l2) ∧ e ∈ l2 := by
  by_cases hk : k2 = k
  · subst hk
    exact ⟨l ++ [e2], dictGet_mergeAppend_self_entries d k2 e2 l h,
      List.mem_append_left _ he⟩
  · exact ⟨l, by rw [dictGet_mergeAppend_ne d k2 k e2 (Ne.symm hk)]; exact h,
      he⟩

theorem data_fold_entries_only (at2 : String) (conf : Rat)
    (data : List (String × String)) :
    ∀ c : List (String × ConsolidatedVal),
      (∀ p ∈ c, ∃ l, p.2 = ConsolidatedVal.entries l) →
      ∀ p ∈ data.foldl (fun c2 p2 =>
          mergeAppend c2 p2.1
            { value := p2.2, agent_type := at2, confidence := conf }) c,
        ∃ l, p.2 = ConsolidatedVal.entries l := by
  induction data with
  | nil => intro c hE; exact hE
  | cons q rest ih =>
    intro c hE
    simp only [List.foldl_cons]
    exact ih _ (mergeAppend_entries_only c q.1 _ hE)

theorem data_fold_preserves_entry (at2 : String) (conf : Rat)
    (data : List (String × String)) :
    ∀ (c : List (String × ConsolidatedVal)) (k : String) (e : MergeEntry)
      (l : List MergeEntry),
      dictGet c k = some (.entries l) → e ∈ l →
      ∃ l2, dictGet (data.foldl (fun c2 p2 =>
          mergeAppend c2 p2.1
            { value := p2.2, agent_type := at2, confidence := conf }) c) k =
        some (.entries l2) ∧ e ∈ l2 := by
  induction data with
  | nil =>
    intro c k e l h he
    exact ⟨l, h, he⟩
  | cons q rest ih =>
    intro c k e l h he
    simp only [List.foldl_cons]
    obtain ⟨l2, h2, he2⟩ := mergeAppend_preserves_entry c k q.1 e _ l h he
    exact ih _ k e l2 h2 he2

theorem data_fold_adds_entry (at2 : String) (conf : Rat)
    (data : List (String × String)) :
    ∀ (c : List (String × ConsolidatedVal)) (k v : String),
      (∀ p ∈ c, ∃ l, p.2 = ConsolidatedVal.entries l) →
      (k, v) ∈ data →
      ∃ l2, dictGet (data.foldl (fun c2 p2 =>
          mergeAppend c2 p2.1
            { value := p2.2, agent_type := at2, confidence := conf }) c) k =
        some (.entries l2) ∧
        ({ value := v, agent_type := at2, confidence := conf } : MergeEntry)
          ∈ l2 := by
  induction data with
  | nil =>
    intro c k v _ hkv
    simp at hkv
  | cons q rest ih =>
    intro c k v hE hkv
    rw [List.mem_cons] at hkv
    simp only [List.foldl_cons]
    rcases hkv with hkv | hkv
    · subst hkv
      cases hg : dictGet c k with
      | none =>
        exact data_fold_preserves_entry at2 conf rest _ k _ [_]
          (dictGet_mergeAppend_self_new c k _ hg) (List.mem_singleton_self _)
      | some x =>
        obtain ⟨l, hl⟩ := hE (k, x) (dictGet_mem c k x hg)
        simp only at hl
        subst hl
        exact data_fold_preserves_entry at2 conf rest _ k _ (l ++ [_])
          (dictGet_mergeAppend_self_entries c k _ l hg)
          (List.mem_append_right _ (List.mem_singleton_self _))
    · exact ih _ k v (mergeAppend_entries_only c q.1 _ hE) hkv

theorem merge_fold_fst (rs : List TaskResult) :
    ∀ acc : List (String × ConsolidatedVal) × List (String × Rat),
      (rs.foldl merge_step acc).1 =
        rs.foldl (fun c r => r.data.foldl (fun c2 p2 =>
          mergeAppend c2 p2.1
            { value := p2.2, agent_type := r.agent_type,
              confidence := r.confidence_score }) c) acc.1 := by
  induction rs with
  | nil => intro acc; rfl
  | cons r rest ih =>
    intro acc
    simp only [List.foldl_cons]
    exact ih _

theorem results_fold_entries_only (rs : List TaskResult) :
    ∀ c : List (String × ConsolidatedVal),
      (∀ p ∈ c, ∃ l, p.2 = ConsolidatedVal.entries l) →
      ∀ p ∈ rs.foldl (fun c2 r => r.data.foldl (fun c3 p2 =>
          mergeAppend c3 p2.1
            { value := p2.2, agent_type := r.agent_type,
              confidence := r.confidence_score }) c2) c,
        ∃ l, p.2 = ConsolidatedVal.entries l := by
  induction rs with
  | nil => intro c hE; exact hE
  | cons r rest ih =>
    intro c hE
    simp only [List.foldl_cons]
    exact ih _ (data_fold_entries_only r.agent_type r.confidence_score
      r.data c hE)

theorem results_fold_preserves_entry (rs : List TaskResult) :
    ∀ (c : List (String × ConsolidatedVal)) (k : String) (e : MergeEntry)
      (l : List MergeEntry),
      dictGet c k = some (.entries l) → e ∈ l →
      ∃ l2, dictGet (rs.foldl (fun c2 r2 => r2.data.foldl (fun c3 p2 =>
          mergeAppend c3 p2.1
            { value := p2.2, agent_type := r2.agent_type,
              confidence := r2.confidence_score }) c2) c) k =
        some (.entries l2) ∧ e ∈ l2 := by
  induction rs with
  | nil =>
    intro c k e l h he
    exact ⟨l, h, he⟩
  | cons r0 rest ih =>
    intro c k e l h he
    simp only [List.foldl_cons]
    obtain ⟨l2, h2, he2⟩ := data_fold_preserves_entry r0.agent_type
      r0.confidence_score r0.data c k e l h he
    exact ih _ k e l2 h2 he2

theorem results_fold_adds_entry (rs : List TaskResult) :
    ∀ c : List (String × ConsolidatedVal),
      (∀ p ∈ c, ∃ l, p.2 = ConsolidatedVal.entries l) →
      ∀ r ∈ rs, ∀ k v : String, (k, v) ∈ r.data →
      ∃ l2, dictGet (rs.foldl (fun c2 r2 => r2.data.foldl (fun c3 p2 =>
          mergeAppend c3 p2.1
            { value := p2.2, agent_type := r2.agent_type,
              confidence := r2.confidence_score }) c2) c) k =
        some (.entries l2) ∧
        ({ value := v, agent_type := r.agent_type,
           confidence := r.confidence_score } : MergeEntry) ∈ l2 := by
  induction rs with
  | nil =>
    intro c _ r hr
    simp at hr
  | cons r0 rest ih =>
    intro c hE r hr k v hkv
    rw [List.mem_cons] at hr
    simp only [List.foldl_cons]
    rcases hr with hr | hr
    · subst hr
      obtain ⟨l2, h2, he2⟩ := data_fold_adds_entry r.agent_type
        r.confidence_score r.data c k v hE hkv
      exact results_fold_preserves_entry rest _ k _ l2 h2 he2
    · exact ih _ (data_fold_entries_only r0.agent_type r0.confidence_score
        r0.data c hE) r hr k v hkv

/-- C7: the merge strategy keeps every contribution.  For every task
result in the merged list and every (key, value) pair of its data, the
consolidated data holds, under that key, an entry carrying that value
together with the contributing agent type and confidence score; in
particular the payload of a single completed task appears in full under
its field keys. -/
theorem merge_round_trip (rs : List TaskResult) (r : TaskResult)
    (k v : String) (hr : r ∈ rs) (hkv : (k, v) ∈ r.data) :
    ∃ l, dictGet (merge_results rs).1 k = some (.entries l) ∧
      ({ value := v, agent_type := r.agent_type,
         confidence := r.confidence_score } : MergeEntry) ∈ l := by
  have hfst : (merge_results rs).1 =
      rs.foldl (fun c2 r2 => r2.data.foldl (fun c3 p2 =>
        mergeAppend c3 p2.1
          { value := p2.2, agent_type := r2.agent_type,
            confidence := r2.confidence_score }) c2) [] := by
    unfold merge_results
    simpa using merge_fold_fst rs ([], [])
  rw [hfst]
  exact results_fold_adds_entry rs [] (by intro p hp; simp at hp) r hr k v hkv

/-- Witness for C7: merging two results that share the field key f keeps
both contributed values under f, each with its agent type and confidence;
and the single-result round trip keeps the lone payload. -/
theorem merge_round_trip_witness :
    ((⟨"t2", "a2", "typeB", "rtB", "completed", 1, 0, [("f", "v2"), ("g", "w")]⟩
        : TaskResult) ∈
      [(⟨"t1", "a1", "typeA", "rtA", "completed", 1, 0, [("f", "v1")]⟩
          : TaskResult),
        ⟨"t2", "a2", "typeB", "rtB", "completed", 1, 0,
          [("f", "v2"), ("g", "w")]⟩] ∧
      ("f", "v2") ∈
        (⟨"t2", "a2", "typeB", "rtB", "completed", 1, 0,
          [("f", "v2"), ("g", "w")]⟩ : TaskResult).data) ∧
    (∃ l, dictGet (merge_results
        [(⟨"t1", "a1", "typeA", "rtA", "completed", 1, 0, [("f", "v1")]⟩
            : TaskResult),
          ⟨"t2", "a2", "typeB", "rtB", "completed", 1, 0,
            [("f", "v2"), ("g", "w")]⟩]).1 "f" =
      some (.entries l) ∧
      ({ value := "v2", agent_type := "typeB", confidence := 1 } : MergeEntry)
        ∈ l) ∧
    (∃ l, dictGet (merge_results
        [(⟨"t1", "a1", "typeA", "rtA", "completed", 1, 0, [("f", "v1")]⟩
            : TaskResult)]).1 "f" =
      some (.entries l) ∧
      ({ value := "v1", agent_type := "typeA", confidence := 1 } : MergeEntry)
        ∈ l) := by
  refine ⟨⟨List.mem_cons_of_mem _ (List.mem_cons_self _ _), ?_⟩, ?_, ?_⟩
  · exact List.mem_cons_self _ _
  · exact merge_round_trip _ _ "f" "v2"
      (List.mem_cons_of_mem _ (List.mem_cons_self _ _))
      (List.mem_cons_self _ _)
  · exact merge_round_trip _ _ "f" "v1" (List.mem_cons_self _ _)
      (List.mem_cons_self _ _)

/-- C8: the consensus and weighted-average strategies are unimplemented
fallbacks: aggregating any result list of any workflow with either of
them yields exactly the same consolidated data, confidence scores and
summary as the merge strategy. -/
theorem fallback_strategies_equal_merge (orch : Orchestrator) (wid : String)
    (rs : List TaskResult) :
    ((create_aggregated_result orch wid rs .consensus).consolidated_data =
        (create_aggregated_result orch wid rs .merge).consolidated_data ∧
      (create_aggregated_result orch wid rs .consensus).confidence_scores =
        (create_aggregated_result orch wid rs .merge).confidence_scores ∧
      (create_aggregated_result orch wid rs .consensus).summary =
        (create_aggregated_result orch wid rs .merge).summary) ∧
    ((create_aggregated_result orch wid rs .weighted_average).consolidated_data =
        (create_aggregated_result orch wid rs .merge).consolidated_data ∧
      (create_aggregated_result orch wid rs .weighted_average).confidence_scores =
        (create_aggregated_result orch wid rs .merge).confidence_scores ∧
      (create_aggregated_result orch wid rs .weighted_average).summary =
        (create_aggregated_result orch wid rs .merge).summary) :=
  ⟨⟨rfl, rfl, rfl⟩, ⟨rfl, rfl, rfl⟩⟩

theorem dictMem_insert_mono {α : Type} (d : List (String × α))
    (k k2 : String) (v : α) (h : dictMem d k2 = true) :
    dictMem (dictInsert d k v) k2 = true := by
  by_cases he : k2 = k
  · subst he
    exact dictMem_insert_self d k2 v
  · rw [dictMem_insert_ne d k k2 v he]
    exact h

theorem nodup_keys_dictGet {α : Type} (d : List (String × α))
    (hnd : (d.map Prod.fst).Nodup) (k : String) (v : α)
    (h : (k, v) ∈ d) : dictGet d k = some v := by
  induction d with
  | nil => simp at h
  | cons p rest ih =>
    rw [List.mem_cons] at h
    rcases h with h | h
    · rw [← h]
      simp [dictGet]
    · have hp : p.1 ≠ k := by
        intro he
        have hk : k ∈ rest.map Prod.fst := List.mem_map.mpr ⟨(k, v), h, rfl⟩
        rw [List.map_cons, List.nodup_cons] at hnd
        exact hnd.1 (he ▸ hk)
      simp only [dictGet, hp, if_neg, not_false_iff]
      exact ih (by rw [List.map_cons, List.nodup_cons] at hnd; exact hnd.2) h

theorem log_count_append (l : List String) (w wid : String) :
    ((l ++ [w]).filter (fun x => x = wid)).length =
      (l.filter (fun x => x = wid)).length + (if w = wid then 1 else 0) := by
  rw [List.filter_append, List.length_append]
  by_cases h : w = wid <;> simp [h]

theorem aggregate_wr_spec (a : ResultAggregator) (orch : Orchestrator)
    (wid2 : String) (strat : Option AggregationStrategy) :
    ((a.aggregate_workflow_results orch wid2 strat).1 = none ∧
      (a.aggregate_workflow_results orch wid2 strat).2 = a) ∨
    (∃ tids : List String,
      dictGet orch.active_workflows wid2 = some tids ∧
      (tids.filterMap (fun tid => dictGet a.task_results tid)).isEmpty =
        false ∧
      (a.aggregate_workflow_results orch wid2 strat).2 =
        { a with
          aggregated_results := dictInsert a.aggregated_results wid2
            (create_aggregated_result orch wid2
              (tids.filterMap (fun tid => dictGet a.task_results tid))
              (strat.getD .merge)),
          workflow_results := dictInsert a.workflow_results wid2
            ((tids.filterMap (fun tid => dictGet a.task_results tid)).map
              (fun r => r.task_id)),
          workflows_completed := a.workflows_completed + 1,
          aggregations_performed := a.aggregations_performed + 1,
          aggregation_log := a.aggregation_log ++ [wid2] }) := by
  unfold ResultAggregator.aggregate_workflow_results
  cases hw : dictGet orch.active_workflows wid2 with
  | none => exact Or.inl ⟨rfl, rfl⟩
  | some tids =>
    dsimp only
    by_cases he : (tids.filterMap (fun tid => dictGet a.task_results tid)).isEmpty = true
    · rw [if_pos he]
      exact Or.inl ⟨rfl, rfl⟩
    · rw [if_neg he]
      exact Or.inr ⟨tids, rfl, by simpa using he, rfl⟩

theorem check_wc_spec (a : ResultAggregator) (orch : Orchestrator)
    (tid : String) :
    a.check_workflow_completion orch tid = a ∨
    (∃ wid2 tids,
      orch.active_workflows.find? (fun p => p.2.contains tid) =
        some (wid2, tids) ∧
      tids.all (fun tid2 => dictMem a.task_results tid2) = true ∧
      dictMem a.aggregated_results wid2 = false ∧
      a.check_workflow_completion orch tid =
        (a.aggregate_workflow_results orch wid2 none).2) := by
  unfold ResultAggregator.check_workflow_completion
  cases hf : orch.active_workflows.find? (fun p => p.2.contains tid) with
  | none => exact Or.inl rfl
  | some p =>
    obtain ⟨wp, tp⟩ := p
    dsimp only
    by_cases hg : (tp.all (fun tid2 => dictMem a.task_results tid2) &&
        !(dictMem a.aggregated_results wp)) = true
    · rw [Bool.and_eq_true, Bool.not_eq_true'] at hg
      refine Or.inr ⟨wp, tp, rfl, hg.1, hg.2, ?_⟩
      simp [hg.1, hg.2]
    · rw [if_neg hg]
      exact Or.inl rfl

theorem add_task_result_spec (a : ResultAggregator) (orch : Orchestrator)
    (r : TaskResult) :
    (a.add_task_result orch r).2 = a ∨
    (∃ a1 : ResultAggregator,
      a1.aggregation_log = a.aggregation_log ∧
      a1.aggregated_results = a.aggregated_results ∧
      (∀ tid, dictMem a.task_results tid = true →
        dictMem a1.task_results tid = true) ∧
      dictMem a1.task_results r.task_id = true ∧
      (a.add_task_result orch r).2 = a1.check_workflow_completion orch
        r.task_id) := by
  unfold ResultAggregator.add_task_result
  by_cases h1 : r.task_id = ""
  · rw [if_pos h1]
    exact Or.inl rfl
  · rw [if_neg h1]
    by_cases h2 : r.agent_id = ""
    · rw [if_pos h2]
      exact Or.inl rfl
    · rw [if_neg h2]
      by_cases h3 : r.confidence_score < 0 ∨ 1 < r.confidence_score
      · rw [if_pos h3]
        exact Or.inr ⟨{ a with
            task_results := dictInsert a.task_results r.task_id
              { r with confidence_score := max 0 (min 1 r.confidence_score) },
            total_results_processed := a.total_results_processed + 1 },
          rfl, rfl, fun tid h => dictMem_insert_mono _ _ _ _ h,
          dictMem_insert_self _ _ _, rfl⟩
      · rw [if_neg h3]
        exact Or.inr ⟨{ a with
            task_results := dictInsert a.task_results r.task_id r,
            total_results_processed := a.total_results_processed + 1 },
          rfl, rfl, fun tid h => dictMem_insert_mono _ _ _ _ h,
          dictMem_insert_self _ _ _, rfl⟩

theorem add_task_result_once_step (orch : Orchestrator) (wid : String)
    (a : ResultAggregator) (r : TaskResult)
    (hP : (a.aggregation_log.filter (fun x => x = wid)).length ≤ 1 ∧
      ((a.aggregation_log.filter (fun x => x = wid)).length = 1 →
        dictMem a.aggregated_results wid = true)) :
    ((a.add_task_result orch r).2.aggregation_log.filter
        (fun x => x = wid)).length ≤ 1 ∧
    (((a.add_task_result orch r).2.aggregation_log.filter
        (fun x => x = wid)).length = 1 →
      dictMem (a.add_task_result orch r).2.aggregated_results wid = true) := by
  rcases add_task_result_spec a orch r with heq | ⟨a1, hlog, hagg, _, _, heq⟩
  · rw [heq]
    exact hP
  · rw [heq]
    have hP1 : (a1.aggregation_log.filter (fun x => x = wid)).length ≤ 1 ∧
        ((a1.aggregation_log.filter (fun x => x = wid)).length = 1 →
          dictMem a1.aggregated_results wid = true) := by
      rw [hlog, hagg]
      exact hP
    rcases check_wc_spec a1 orch r.task_id with heq2 | ⟨wid2, tids, _, _,
        hnotagg, heq2⟩
    · rw [heq2]
      exact hP1
    · rw [heq2]
      rcases aggregate_wr_spec a1 orch wid2 none with ⟨_, heq3⟩ |
          ⟨tids2, _, _, heq3⟩
      · rw [heq3]
        exact hP1
      · rw [heq3]
        simp only [log_count_append]
        by_cases hw : wid2 = wid
        · subst hw
          have hz : (a1.aggregation_log.filter (fun x => x = wid2)).length
              = 0 := by
            rcases Nat.lt_or_ge (a1.aggregation_log.filter
              (fun x => x = wid2)).length 1 with h | h
            · omega
            · have := hP1.2 (by omega)
              rw [this] at hnotagg
              exact absurd hnotagg (by simp)
          constructor
          · simp [hz]
          · intro _
            exact dictMem_insert_self _ _ _
        · simp only [hw, if_neg, not_false_iff, Nat.add_zero]
          refine ⟨hP1.1, fun hc => ?_⟩
          exact dictMem_insert_mono _ _ _ _ (hP1.2 hc)

/-- C4, counterexample: workflow w owns tasks t1 and t2 but only t1 has a
recorded result; a direct aggregate_workflow_results call nevertheless
aggregates (before every task id is terminal), and a second direct call
aggregates again — the aggregation counter reaches 2 and the success log
records w twice, so aggregation is neither guarded by completion nor
performed at most once over sequences that include direct calls. -/
theorem aggregate_twice_counterexample :
    (ResultAggregator.aggregate_workflow_results
        ⟨[("t1", ⟨"t1", "a1", "tyA", "rtA", "completed", 1, 0, [("f", "v1")]⟩)],
          [], [], 1, 0, 0, []⟩
        ⟨[("w", ["t1", "t2"])], []⟩ "w" none).1.isSome = true ∧
    dictMem (ResultAggregator.task_results
      ⟨[("t1", ⟨"t1", "a1", "tyA", "rtA", "completed", 1, 0, [("f", "v1")]⟩)],
        [], [], 1, 0, 0, []⟩) "t2" = false ∧
    (ResultAggregator.aggregate_workflow_results
      (ResultAggregator.aggregate_workflow_results
        ⟨[("t1", ⟨"t1", "a1", "tyA", "rtA", "completed", 1, 0, [("f", "v1")]⟩)],
          [], [], 1, 0, 0, []⟩
        ⟨[("w", ["t1", "t2"])], []⟩ "w" none).2
      ⟨[("w", ["t1", "t2"])], []⟩ "w" none).2.aggregations_performed = 2 ∧
    (ResultAggregator.aggregate_workflow_results
      (ResultAggregator.aggregate_workflow_results
        ⟨[("t1", ⟨"t1", "a1", "tyA", "rtA", "completed", 1, 0, [("f", "v1")]⟩)],
          [], [], 1, 0, 0, []⟩
        ⟨[("w", ["t1", "t2"])], []⟩ "w" none).2
      ⟨[("w", ["t1", "t2"])], []⟩ "w" none).2.aggregation_log = ["w", "w"] := by
  refine ⟨by decide, by decide, by decide, by decide⟩

/-- C4 amended: the automatic completion check triggers an aggregation of
a workflow only at a point where every one of its task ids has a recorded
result, and along any sequence of add_task_result operations a workflow
is aggregated at most once (once aggregated it stays in the aggregated
store and the check never fires again); the direct
aggregate_workflow_results method, however, carries no such guard — it
aggregates whenever at least one of the workflow task ids has a recorded
result, and does so again on every call (see the counterexample). -/
theorem aggregate_once_amended (orch : Orchestrator) (wid : String)
    (hkeys : (orch.active_workflows.map Prod.fst).Nodup) :
    (∀ (a : ResultAggregator) (r : TaskResult),
      ((a.add_task_result orch r).2.aggregation_log.filter
          (fun x => x = wid)).length >
        (a.aggregation_log.filter (fun x => x = wid)).length →
      ∃ tids, dictGet orch.active_workflows wid = some tids ∧
        ∀ tid ∈ tids,
          dictMem (a.add_task_result orch r).2.task_results tid = true) ∧
    (∀ (a : ResultAggregator) (rs : List TaskResult),
      ((a.aggregation_log.filter (fun x => x = wid)).length ≤ 1 ∧
        ((a.aggregation_log.filter (fun x => x = wid)).length = 1 →
          dictMem a.aggregated_results wid = true)) →
      (((ResultAggregator.aggregation_log (List.foldl
            (fun (a2 : ResultAggregator) r => (a2.add_task_result orch r).2)
            a rs)).filter (fun x => x = wid)).length ≤ 1 ∧
        (((ResultAggregator.aggregation_log (List.foldl
              (fun (a2 : ResultAggregator) r =>
                (a2.add_task_result orch r).2) a rs)).filter
              (fun x => x = wid)).length = 1 →
          dictMem (ResultAggregator.aggregated_results (List.foldl
              (fun (a2 : ResultAggregator) r =>
                (a2.add_task_result orch r).2) a rs)) wid = true))) := by
  constructor
  · intro a r hgrow
    rcases add_task_result_spec a orch r with heq | ⟨a1, hlog, _, _, _, heq⟩
    · rw [heq] at hgrow
      omega
    · rw [heq] at hgrow ⊢
      rcases check_wc_spec a1 orch r.task_id with heq2 |
          ⟨wid2, tids, hfind, hall, _, heq2⟩
      · rw [heq2, hlog] at hgrow
        omega
      · rw [heq2] at hgrow ⊢
        rcases aggregate_wr_spec a1 orch wid2 none with ⟨_, heq3⟩ |
            ⟨tids2, hw2, _, heq3⟩
        · rw [heq3, hlog] at hgrow
          omega
        · rw [heq3] at hgrow ⊢
          rw [log_count_append, hlog] at hgrow
          by_cases hww : wid2 = wid
          · subst hww
            have hmem := List.mem_of_find?_eq_some hfind
            have hget := nodup_keys_dictGet orch.active_workflows hkeys
              wid2 tids hmem
            refine ⟨tids, hget, ?_⟩
            intro tid htid
            simp only []
            exact (List.all_eq_true.mp hall) tid htid
          · rw [if_neg hww] at hgrow
            omega
  · intro a rs
    induction rs generalizing a with
    | nil => intro hP; exact hP
    | cons r rest ih =>
      intro hP
      simp only [List.foldl_cons]
      exact ih _ (add_task_result_once_step orch wid a r hP)

/-- Witness for the amended C4: a two-task workflow whose two results
arrive through add_task_result; starting from the empty aggregator the
workflow ends aggregated at most once, and an automatic trigger always
finds every task id recorded. -/
theorem aggregate_once_amended_witness :
    ((([("w", ["t1", "t2"])] : List (String × List String)).map
        Prod.fst).Nodup ∧
      ((([] : List String).filter (fun x => x = "w")).length ≤ 1 ∧
        ((([] : List String).filter (fun x => x = "w")).length = 1 →
          dictMem ([] : List (String × AggregatedResult)) "w" = true))) ∧
    ((List.filter (fun x => x = "w")
        (ResultAggregator.aggregation_log (List.foldl
          (fun (a2 : ResultAggregator) r =>
            (a2.add_task_result ⟨[("w", ["t1", "t2"])], []⟩ r).2)
          ⟨[], [], [], 0, 0, 0, []⟩
          [⟨"t1", "a1", "tyA", "rtA", "completed", 1, 0, [("f", "v1")]⟩,
            ⟨"t2", "a2", "tyB", "rtB", "completed", 1, 0,
              [("g", "v2")]⟩]))).length ≤ 1) := by
  have hkeys : (([("w", ["t1", "t2"])] :
      List (String × List String)).map Prod.fst).Nodup := by decide
  have hP : ((([] : List String).filter (fun x => x = "w")).length ≤ 1 ∧
      ((([] : List String).filter (fun x => x = "w")).length = 1 →
        dictMem ([] : List (String × AggregatedResult)) "w" = true)) := by
    decide
  exact ⟨⟨hkeys, hP⟩,
    ((aggregate_once_amended ⟨[("w", ["t1", "t2"])], []⟩ "w" hkeys).2
      ⟨[], [], [], 0, 0, 0, []⟩
      [⟨"t1", "a1", "tyA", "rtA", "completed", 1, 0, [("f", "v1")]⟩,
        ⟨"t2", "a2", "tyB", "rtB", "completed", 1, 0, [("g", "v2")]⟩]
      hP).1⟩

end Siame
